import Mathlib

/-!
Verification of the mqtt-tiny packet codec.

A shallow embedding of the iterator-based MQTT 3.1.1 packet codec:

* `src/coding/decoder.rs` — pull decoder over a byte iterator (`Decoder`);
* `src/coding/encoder.rs` — push encoder producing a lazy byte sequence (`Encoder`);
* `src/coding/length.rs`  — the `Length` meter mirroring the encoder surface;
* `src/error.rs`          — the error kinds (`Data`, `Decoding`);
* `src/anyvec.rs`         — the container capability (`AnyVec`) backends;
* `src/packets/*.rs`      — the packet records and their coders.

Bytes are modelled as `Nat` (values of Rust `u8`; every byte emitted by the
embedded encoders is `< 256`).  A decoder is a function from the remaining
byte list to either an error or a value paired with the not-yet-consumed
remainder; this models Rust's mutable-iterator discipline where each read
consumes a prefix of the stream.  Encoder operations that `panic!`/`expect`
in the source (API-misuse guards) are modelled with `Option`, `none` being
the panic.
-/

namespace MqttTiny

/-- Error descriptions: one constructor per `&'static str` error description
appearing in the embedded sources (`decoder.rs` and the packet decoders). -/
inductive ErrMsg where
  /-- "Truncated input" (decoder.rs) -/
  | truncatedInput
  /-- "Invalid packet length" (decoder.rs `packetlen`, acklike/signal templates) -/
  | invalidPacketLength
  /-- "Packet length is too large" (decoder.rs `packetlen`) -/
  | packetLengthTooLarge
  /-- "Invalid packet type" (packet decoders) -/
  | invalidPacketType
  /-- "Invalid packet type/header" (subscribe.rs / unsubscribe.rs) -/
  | invalidPacketTypeHeader
  /-- "invalid protocol name" (connect.rs) -/
  | invalidProtocolName
  /-- "invalid protocol version" (connect.rs) -/
  | invalidProtocolVersion
  /-- "Empty packet" (packet.rs) -/
  | emptyPacket
  /-- "Unknown packet type" (packet.rs) -/
  | unknownPacketType
deriving DecidableEq, Repr

/-- `error::Data` — the data-driven error kinds of `src/error.rs` (lines
103-110).  The enum has exactly the two variants `Truncated` and
`SpecViolation`; there is no `UnsupportedVersion` variant. -/
inductive Data where
  | truncated
  | specViolation
deriving DecidableEq, Repr

/-- `error::Decoding` — general decoding error kinds of `src/error.rs`
(lines 112-121): `Truncated`, `SpecViolation` and `Memory`. -/
inductive Decoding where
  | truncated
  | specViolation
  | memory
deriving DecidableEq, Repr

/-- Modelled from the spec: §7 of the specification assigns each decoder
error description to a kind — truncation of the byte source is `Truncated`,
every structural mismatch (wrong packet type, wrong header flags, invalid
remaining-length encoding, wrong protocol name/level, unknown type nibble,
wrong fixed body length) is `SpecViolation`.  The snapshot's
`decoder.rs` returns bare description strings while the packet decoders
surface `Decoding` kinds; this classification is the glue between the two,
and it agrees with every explicit `err!(Data::..., ...)` kind in the
packet sources. -/
def classify : ErrMsg → Decoding
  | .truncatedInput => .truncated
  | _ => .specViolation

/-! ## The decoder monad

`Decoder<Iter>` pulls bytes off a mutable iterator.  We model a decoding
step as a function from the remaining bytes to an error or a result plus
remainder.  `dbind` models Rust's `?`-sequencing of fallible reads. -/

/-- A decoding step over the remaining byte list. -/
def DecM (α : Type) : Type := List Nat → Except ErrMsg (α × List Nat)

/-- A step that consumes nothing and returns `a` (an infallible `Ok`). -/
def dpure {α : Type} (a : α) : DecM α := fun bs => .ok (a, bs)

/-- Sequencing of decoding steps; models the `?` operator. -/
def dbind {α β : Type} (m : DecM α) (f : α → DecM β) : DecM β := fun bs =>
  match m bs with
  | .error e => .error e
  | .ok (a, rest) => f a rest

/-- A step that fails outright. -/
def dthrow {α : Type} (e : ErrMsg) : DecM α := fun _ => .error e

/-- `Decoder::u8` — one byte or `"Truncated input"`. -/
def dU8 : DecM Nat := fun bs =>
  match bs with
  | [] => .error .truncatedInput
  | b :: rest => .ok (b, rest)

/-- `Decoder::raw::<SIZE>` — fills an array of `n` bytes by repeated
`u8` reads. -/
def dRaw : Nat → DecM (List Nat)
  | 0 => dpure []
  | n + 1 => dbind dU8 fun b => dbind (dRaw n) fun r => dpure (b :: r)

/-- `u16::from_be_bytes` on a two-byte array. -/
def be16 : List Nat → Nat
  | [hi, lo] => 256 * hi + lo
  | _ => 0

/-- `Decoder::u16` — `raw::<2>` then big-endian assembly. -/
def dU16 : DecM Nat := dbind (dRaw 2) fun r => dpure (be16 r)

/-- `Decoder::bytes` — a `u16` length prefix followed by exactly that many
bytes.  The container backend is the heap-growing `Vec<u8>` default, whose
`push` does not fail, so no `Memory` error arises here. -/
def dBytes : DecM (List Nat) := dbind dU16 fun len => dRaw len

/-- The `[bool; 8]` array returned by `Decoder::bitmap`, MSB first. -/
structure Bits8 where
  i7 : Bool
  i6 : Bool
  i5 : Bool
  i4 : Bool
  i3 : Bool
  i2 : Bool
  i1 : Bool
  i0 : Bool
deriving DecidableEq, Repr

/-- The `[bool; 4]` flag array `[b3, b2, b1, b0]` of `Decoder::header`. -/
structure Bits4 where
  f3 : Bool
  f2 : Bool
  f1 : Bool
  f0 : Bool
deriving DecidableEq, Repr

/-- Decompose a byte into its 8 bits, MSB first (`Decoder::bitmap` body). -/
def byteToBits (b : Nat) : Bits8 :=
  ⟨b &&& 128 != 0, b &&& 64 != 0, b &&& 32 != 0, b &&& 16 != 0,
   b &&& 8 != 0, b &&& 4 != 0, b &&& 2 != 0, b &&& 1 != 0⟩

/-- The low nibble of a byte as flags `[b3, b2, b1, b0]`
(`Decoder::header` body). -/
def byteToBits4 (b : Nat) : Bits4 :=
  ⟨b &&& 8 != 0, b &&& 4 != 0, b &&& 2 != 0, b &&& 1 != 0⟩

/-- `Decoder::bitmap` — one byte as 8 booleans. -/
def dBitmap : DecM Bits8 := dbind dU8 fun b => dpure (byteToBits b)

/-- `Decoder::header` — one byte as `(type_nibble, flags)`. -/
def dHeader : DecM (Nat × Bits4) := dbind dU8 fun b => dpure (b >>> 4, byteToBits4 b)

/-- The loop body of `Decoder::packetlen`: `pos` is the `enumerate` index
and `value` the accumulator.  The source checks, in order: a multi-byte
length whose first byte is exactly `0b1000_0000` while the value is still
zero; a continuation bit on a byte past index 2; otherwise continue or
finish. -/
def dPacketlenAux : Nat → Nat → List Nat → Except ErrMsg (Nat × List Nat)
  | _, _, [] => .error .truncatedInput
  | pos, value, b :: rest =>
    let value' := (value <<< 7) ||| (b &&& 127)
    if b &&& 128 != 0 then
      if b = 128 ∧ value' = 0 then .error .invalidPacketLength
      else if pos > 2 then .error .packetLengthTooLarge
      else dPacketlenAux (pos + 1) value' rest
    else .ok (value', rest)

/-- `Decoder::packetlen` — 1..4 heptet variable-length integer. -/
def dPacketlen : DecM Nat := fun bs => dPacketlenAux 0 0 bs

/-- `Decoder::optional_u16`. -/
def dOptionalU16 (condition : Bool) : DecM (Option Nat) :=
  match condition with
  | true => dbind dU16 fun v => dpure (some v)
  | false => dpure none

/-- `Decoder::optional_bytes`. -/
def dOptionalBytes (condition : Bool) : DecM (Option (List Nat)) :=
  match condition with
  | true => dbind dBytes fun v => dpure (some v)
  | false => dpure none

/-- `Decoder::raw_remainder` — greedy: reads every remaining byte of the
(length-limited) source.  With the `Vec<u8>` backend `push` cannot fail. -/
def dRawRemainder : DecM (List Nat) := fun bs => .ok (bs, [])

/-- `Decoder::topics` — `while !self.is_empty() { topics.push(self.bytes()?) }`.
The source's loop terminates because the iterator is consumed; `fuel` bounds
the iteration count (each pass consumes at least the two length bytes, so
the remaining byte count is always sufficient fuel). -/
def dTopicsAux (fuel : Nat) : DecM (List (List Nat)) := fun bs =>
  match fuel, bs with
  | _, [] => .ok ([], [])
  | 0, _ :: _ => .error .truncatedInput
  | fuel + 1, bs =>
    dbind dBytes (fun t => dbind (dTopicsAux fuel) fun r => dpure (t :: r)) bs

/-- `Decoder::topics_qos` — like `topics` but each item is a length-prefixed
topic followed by one QoS byte. -/
def dTopicsQosAux (fuel : Nat) : DecM (List (List Nat × Nat)) := fun bs =>
  match fuel, bs with
  | _, [] => .ok ([], [])
  | 0, _ :: _ => .error .truncatedInput
  | fuel + 1, bs =>
    dbind dBytes (fun t => dbind dU8 fun q =>
      dbind (dTopicsQosAux fuel) fun r => dpure ((t, q) :: r)) bs

/-! ## The encoder

`Encoder` chains lazy byte iterators; collecting the final iterator yields
the concatenation of the per-field byte lists, which is what we model.
Operations that panic on API misuse return `none` for the panicking
arguments. -/

/-- `Encoder::u8`. -/
def eU8 (b : Nat) : List Nat := [b]

/-- `Encoder::u16` — `to_be_bytes` of a `u16` value (`< 65536`). -/
def eU16 (v : Nat) : List Nat := [v / 256, v % 256]

/-- Recompose 8 bits into a byte, MSB first (`Encoder::bitmap` body). -/
def bitsToByte (bits : Bits8) : Nat :=
  (bits.i7.toNat <<< 7) ||| (bits.i6.toNat <<< 6) ||| (bits.i5.toNat <<< 5) |||
  (bits.i4.toNat <<< 4) ||| (bits.i3.toNat <<< 3) ||| (bits.i2.toNat <<< 2) |||
  (bits.i1.toNat <<< 1) ||| bits.i0.toNat

/-- `Encoder::bitmap`. -/
def eBitmap (bits : Bits8) : List Nat := [bitsToByte bits]

/-- `Encoder::header` — `(type << 4) | flags`; panics (`none`) when the
packet type exceeds 15. -/
def eHeader (type_ : Nat) (flags : Bits4) : Option (List Nat) :=
  if type_ ≤ 15 then
    some [(type_ <<< 4) ||| (flags.f3.toNat <<< 3) ||| (flags.f2.toNat <<< 2) |||
          (flags.f1.toNat <<< 1) ||| flags.f0.toNat]
  else none

/-- `Encoder::bytes` — `u16` length prefix then the raw bytes; panics
(`none`) when the field exceeds `u16::MAX` bytes. -/
def eBytes (b : List Nat) : Option (List Nat) :=
  if b.length ≤ 65535 then some (eU16 b.length ++ b) else none

/-- The `len_size` match of `Encoder::packetlen` / `Length::packetlen`:
number of heptets for a value below `2^28`. -/
def plSize (n : Nat) : Nat :=
  if n < 128 then 1
  else if n < 128 ^ 2 then 2
  else if n < 128 ^ 3 then 3
  else 4

/-- The byte list produced by the heptet loop of `Encoder::packetlen` for
`len_size = s`: most-significant heptet first, continuation bit `0x80` on
every byte but the last. -/
def plBytes : Nat → Nat → List Nat
  | 0, _ => []
  | 1, n => [n &&& 127]
  | s + 2, n => (((n >>> (7 * (s + 1))) &&& 127) ||| 128) :: plBytes (s + 1) n

/-- `Encoder::packetlen` — panics (`none`) for values `≥ 2^28`. -/
def ePacketlen (n : Nat) : Option (List Nat) :=
  if n < 2 ^ 28 then some (plBytes (plSize n) n) else none

/-- `Encoder::optional_u16`. -/
def eOptionalU16 : Option Nat → List Nat
  | some v => eU16 v
  | none => []

/-- `Encoder::optional_bytes` — same panic condition as `bytes`. -/
def eOptionalBytes : Option (List Nat) → Option (List Nat)
  | some b => eBytes b
  | none => some []

/-- The bytes an `OptionalBytesIter` yields (the non-panicking value of
`eOptionalBytes`): a length-prefixed field for `Some`, nothing for
`None`. -/
def optBytesEnc : Option (List Nat) → List Nat
  | some b => eU16 b.length ++ b
  | none => []

/-- `Encoder::raw` — the bytes as-is. -/
def eRaw (b : List Nat) : List Nat := b

/-- `Encoder::topics` — each topic length-prefixed; panics (`none`) when
any single topic exceeds `u16::MAX` bytes. -/
def eTopics : List (List Nat) → Option (List Nat)
  | [] => some []
  | t :: r => do
    let tb ← eBytes t
    let rb ← eTopics r
    pure (tb ++ rb)

/-- `Encoder::topics_qos` — each item a length-prefixed topic plus one QoS
byte. -/
def eTopicsQos : List (List Nat × Nat) → Option (List Nat)
  | [] => some []
  | (t, q) :: r => do
    let tb ← eBytes t
    let rb ← eTopicsQos r
    pure (tb ++ [q] ++ rb)

/-! ## The `Length` meter (`src/coding/length.rs`)

Each operation adds the byte count the encoder would emit.  `header` and
`packetlen` share the encoder's panic conditions (`assert!`/`panic!`);
the others only guard against `usize` overflow, which cannot occur over
`Nat`, so they are total — note in particular that `Length::bytes` does
*not* check the `u16::MAX` bound the encoder enforces. -/

/-- `Length::u8`. -/
def lenU8 : Nat := 1

/-- `Length::u16`. -/
def lenU16 : Nat := 2

/-- `Length::raw`. -/
def lenRaw (b : List Nat) : Nat := b.length

/-- `Length::bytes`. -/
def lenBytes (b : List Nat) : Nat := 2 + b.length

/-- `Length::bitmap`. -/
def lenBitmap : Nat := 1

/-- `Length::header` — shares the encoder's `type <= 15` assertion. -/
def lenHeader (type_ : Nat) : Option Nat :=
  if type_ ≤ 15 then some 1 else none

/-- `Length::packetlen` — shares the encoder's `< 2^28` panic. -/
def lenPacketlen (n : Nat) : Option Nat :=
  if n < 2 ^ 28 then some (plSize n) else none

/-- `Length::optional_u16`. -/
def lenOptionalU16 : Option Nat → Nat
  | some _ => lenU16
  | none => 0

/-- `Length::optional_bytes`. -/
def lenOptionalBytes : Option (List Nat) → Nat
  | some b => lenBytes b
  | none => 0

/-- `Length::topics`. -/
def lenTopics : List (List Nat) → Nat
  | [] => 0
  | t :: r => lenBytes t + lenTopics r

/-- `Length::topics_qos`. -/
def lenTopicsQos : List (List Nat × Nat) → Nat
  | [] => 0
  | (t, _) :: r => lenBytes t + lenU8 + lenTopicsQos r

/-! ## CONNECT (`src/packets/connect.rs`) -/

/-- The `Connect` packet record.  Byte buffers are lists of byte values
(the `Vec<u8>` backend). -/
structure Connect where
  keepAliveSecs : Nat
  cleanSession : Bool
  willRetain : Bool
  willQos : Nat
  clientId : List Nat
  willTopic : Option (List Nat)
  willMessage : Option (List Nat)
  username : Option (List Nat)
  password : Option (List Nat)
deriving DecidableEq, Repr

/-- `Connect::PROTOCOL_NAME = b"\x00\x04MQTT"`. -/
def protocolName : List Nat := [0x00, 0x04, 0x4D, 0x51, 0x54, 0x54]

/-- `Connect::new` — with the `Vec` backend the buffer copy cannot fail. -/
def Connect.new (keepAliveSecs : Nat) (cleanSession : Bool) (clientId : List Nat) : Connect :=
  { keepAliveSecs, cleanSession, willRetain := false, willQos := 0, clientId,
    willTopic := none, willMessage := none, username := none, password := none }

/-- `Connect::with_will`. -/
def Connect.withWill (c : Connect) (topic message : List Nat) (qos : Nat) (retain : Bool) :
    Connect :=
  { c with willTopic := some topic, willMessage := some message,
           willRetain := retain, willQos := qos }

/-- `Connect::with_username_password`. -/
def Connect.withUsernamePassword (c : Connect) (username password : List Nat) : Connect :=
  { c with username := some username, password := some password }

/-- The connect-flag bitmap assembled in `Connect::into_iter`:
`[user, pass, will_retain, will_qos_hi, will_qos_lo, will_flag(= will_topic
presence), clean_session, 0]`. -/
def connectFlags (c : Connect) : Bits8 :=
  ⟨c.username.isSome, c.password.isSome, c.willRetain,
   c.willQos >>> 1 != 0, c.willQos &&& 1 != 0,
   c.willTopic.isSome, c.cleanSession, false⟩

/-- The body part of the CONNECT variable header/payload: everything after
the remaining-length field, in the order `Connect::into_iter` emits it. -/
def connectBodyBytes (c : Connect) : List Nat :=
  protocolName ++ ([0x04] ++ (eBitmap (connectFlags c) ++ (eU16 c.keepAliveSecs ++
    ((eU16 c.clientId.length ++ c.clientId) ++ (optBytesEnc c.willTopic ++
    (optBytesEnc c.willMessage ++ (optBytesEnc c.username ++ optBytesEnc c.password)))))))

/-- The `Length` chain of `Connect::into_iter` (the precomputed body
length). -/
def connectLen (c : Connect) : Nat :=
  lenRaw protocolName + lenU8 + lenBitmap + lenU16 + lenBytes c.clientId +
    lenOptionalBytes c.willTopic + lenOptionalBytes c.willMessage +
    lenOptionalBytes c.username + lenOptionalBytes c.password

/-- `Connect::into_iter`, collected — header byte, remaining length, body.
`none` models the panics of `Encoder::bytes`/`optional_bytes`/`packetlen`
on oversized fields. -/
def Connect.intoIter (c : Connect) : Option (List Nat) := do
  let len := connectLen c
  let hdr ← eHeader 1 ⟨false, false, false, false⟩
  let pl ← ePacketlen len
  let cid ← eBytes c.clientId
  let wt ← eOptionalBytes c.willTopic
  let wm ← eOptionalBytes c.willMessage
  let un ← eOptionalBytes c.username
  let pw ← eOptionalBytes c.password
  pure (hdr ++ pl ++ eRaw protocolName ++ eU8 0x04 ++ eBitmap (connectFlags c) ++
        eU16 c.keepAliveSecs ++ cid ++ wt ++ wm ++ un ++ pw)

/-- The field reads of `Connect::try_from_iter` performed inside the
length-limited region: protocol name, protocol level, connect flags,
keep-alive, client id and the four optional fields. -/
def connectBody : DecM Connect :=
  dbind (dRaw 6) fun pn =>
  if pn = protocolName then
    dbind dU8 fun lvl =>
    if lvl = 0x04 then
      dbind dBitmap fun flags =>
      match flags with
      | ⟨fUser, fPass, willRetain, willQos0, willQos1, fWill, cleanSession, _⟩ =>
        dbind dU16 fun keepAliveSecs =>
        dbind dBytes fun clientId =>
        dbind (dOptionalBytes fWill) fun willTopic =>
        dbind (dOptionalBytes fWill) fun willMessage =>
        dbind (dOptionalBytes fUser) fun username =>
        dbind (dOptionalBytes fPass) fun password =>
        dpure { keepAliveSecs, cleanSession, willRetain,
                willQos := (willQos0.toNat <<< 1) ||| willQos1.toNat,
                clientId, willTopic, willMessage, username, password }
    else dthrow .invalidProtocolVersion
  else dthrow .invalidProtocolName

/-- `Connect::try_from_iter` — header, remaining length, then the body
reads on the length-limited region (`Decoder::limit`, modelled by
`List.take`).  Note the source performs no leftover check after the last
field. -/
def Connect.tryFromIter (bs : List Nat) : Except Decoding Connect :=
  match dHeader bs with
  | .error e => .error (classify e)
  | .ok ((t, _flags), r1) =>
    if t = 1 then
      match dPacketlen r1 with
      | .error e => .error (classify e)
      | .ok (len, r2) =>
        match connectBody (r2.take len) with
        | .error e => .error (classify e)
        | .ok (c, _) => .ok c
    else .error (classify .invalidPacketType)

/-! ## CONNACK (`src/packets/connack.rs`) -/

/-- The `Connack` packet record. -/
structure Connack where
  sessionPresent : Bool
  returnCode : Nat
deriving DecidableEq, Repr

/-- `Connack::new`. -/
def Connack.new (sessionPresent : Bool) (returnCode : Nat) : Connack :=
  { sessionPresent, returnCode }

/-- `Connack::try_from_iter` — header (type 2), remaining length exactly
`BODY_LEN = 2`, ack-flag bitmap (only bit 0 inspected), return code. -/
def Connack.tryFromIter (bs : List Nat) : Except Decoding Connack :=
  match dHeader bs with
  | .error e => .error (classify e)
  | .ok ((t, _flags), r1) =>
    if t = 2 then
      match dPacketlen r1 with
      | .error e => .error (classify e)
      | .ok (len, r2) =>
        if len = 2 then
          match dBitmap r2 with
          | .error e => .error (classify e)
          | .ok (⟨_, _, _, _, _, _, _, sessionPresent⟩, r3) =>
            match dU8 r3 with
            | .error e => .error (classify e)
            | .ok (returnCode, _) => .ok { sessionPresent, returnCode }
        else .error (classify .invalidPacketLength)
    else .error (classify .invalidPacketType)

/-- `Connack::into_iter`, collected. -/
def Connack.intoIter (c : Connack) : Option (List Nat) := do
  let hdr ← eHeader 2 ⟨false, false, false, false⟩
  let pl ← ePacketlen 2
  pure (hdr ++ pl ++
        eBitmap ⟨false, false, false, false, false, false, false, c.sessionPresent⟩ ++
        eU8 c.returnCode)

/-! ## ACK-like and signal-like packets (`src/packets/_ack.rs` /
`src/packets/_signal.rs` templates) -/

/-- The shared decoder of the `acklike!` template: header with the expected
type, remaining length exactly 2, then the packet id. -/
def acklikeTryFromIter (type_ : Nat) (bs : List Nat) : Except Decoding Nat :=
  match dHeader bs with
  | .error e => .error (classify e)
  | .ok ((t, _flags), r1) =>
    if t = type_ then
      match dPacketlen r1 with
      | .error e => .error (classify e)
      | .ok (len, r2) =>
        if len = 2 then
          match dU16 r2 with
          | .error e => .error (classify e)
          | .ok (packetId, _) => .ok packetId
        else .error (classify .invalidPacketLength)
    else .error (classify .invalidPacketType)

/-- The shared encoder of the `acklike!` template. -/
def acklikeIntoIter (type_ : Nat) (packetId : Nat) : Option (List Nat) := do
  let hdr ← eHeader type_ ⟨false, false, false, false⟩
  let pl ← ePacketlen 2
  pure (hdr ++ pl ++ eU16 packetId)

/-- The shared decoder of the `emptylike!` template: header with the
expected type and remaining length exactly 0. -/
def signalTryFromIter (type_ : Nat) (bs : List Nat) : Except Decoding Unit :=
  match dHeader bs with
  | .error e => .error (classify e)
  | .ok ((t, _flags), r1) =>
    if t = type_ then
      match dPacketlen r1 with
      | .error e => .error (classify e)
      | .ok (len, _) =>
        if len = 0 then .ok () else .error (classify .invalidPacketLength)
    else .error (classify .invalidPacketType)

/-- The shared encoder of the `emptylike!` template. -/
def signalIntoIter (type_ : Nat) : Option (List Nat) := do
  let hdr ← eHeader type_ ⟨false, false, false, false⟩
  let pl ← ePacketlen 0
  pure (hdr ++ pl)

/-! ## PUBLISH (`src/packets/publish.rs`) -/

/-- The `Publish` packet record. -/
structure Publish where
  dup : Bool
  qos : Nat
  retain : Bool
  topic : List Nat
  packetId : Option Nat
  payload : List Nat
deriving DecidableEq, Repr

/-- `Publish::new`. -/
def Publish.new (topic payload : List Nat) (retain : Bool) : Publish :=
  { dup := false, qos := 0, retain, topic, packetId := none, payload }

/-- `Publish::with_qos`. -/
def Publish.withQos (p : Publish) (qos : Nat) (packetId : Nat) (dup : Bool) : Publish :=
  { p with dup, qos, packetId := some packetId }

/-- `Publish::try_from_iter` — header with flags `[dup, qos0, qos1,
retain]`, remaining length, then inside the limited region: topic, a
packet id iff a QoS bit is set, and the greedy `raw_remainder` payload. -/
def Publish.tryFromIter (bs : List Nat) : Except Decoding Publish :=
  match dHeader bs with
  | .error e => .error (classify e)
  | .ok ((t, ⟨dup, qos0, qos1, retain⟩), r1) =>
    if t = 3 then
      match dPacketlen r1 with
      | .error e => .error (classify e)
      | .ok (len, r2) =>
        match (dbind dBytes fun topic =>
               dbind (dOptionalU16 (qos0 || qos1)) fun packetId =>
               dbind dRawRemainder fun payload =>
               dpure { dup, qos := (qos0.toNat <<< 1) ||| qos1.toNat, retain,
                       topic, packetId, payload : Publish }) (r2.take len) with
        | .error e => .error (classify e)
        | .ok (p, _) => .ok p
    else .error (classify .invalidPacketType)

/-- The `Length` chain of `Publish::into_iter`. -/
def publishLen (p : Publish) : Nat :=
  lenBytes p.topic + lenOptionalU16 p.packetId + lenRaw p.payload

/-- `Publish::into_iter`, collected. -/
def Publish.intoIter (p : Publish) : Option (List Nat) := do
  let len := publishLen p
  let hdr ← eHeader 3 ⟨p.dup, p.qos >>> 1 != 0, p.qos &&& 1 != 0, p.retain⟩
  let pl ← ePacketlen len
  let tp ← eBytes p.topic
  pure (hdr ++ pl ++ tp ++ eOptionalU16 p.packetId ++ eRaw p.payload)

/-! ## SUBSCRIBE / UNSUBSCRIBE (`src/packets/subscribe.rs`,
`src/packets/unsubscribe.rs`) -/

/-- The `Subscribe` packet record. -/
structure Subscribe where
  packetId : Nat
  topicsQos : List (List Nat × Nat)
deriving DecidableEq, Repr

/-- `Subscribe::try_from_iter` — header must be `(8, [false, false, true,
false])`; then packet id and the greedy topic+QoS loop over the limited
region. -/
def Subscribe.tryFromIter (bs : List Nat) : Except Decoding Subscribe :=
  match dHeader bs with
  | .error e => .error (classify e)
  | .ok ((t, flags), r1) =>
    if t = 8 ∧ flags = ⟨false, false, true, false⟩ then
      match dPacketlen r1 with
      | .error e => .error (classify e)
      | .ok (len, r2) =>
        match (dbind dU16 fun packetId =>
               dbind (dTopicsQosAux (r2.take len).length) fun topicsQos =>
               dpure { packetId, topicsQos : Subscribe }) (r2.take len) with
        | .error e => .error (classify e)
        | .ok (s, _) => .ok s
    else .error (classify .invalidPacketTypeHeader)

/-- The `Length` chain of `Subscribe::into_iter`. -/
def subscribeLen (s : Subscribe) : Nat := lenU16 + lenTopicsQos s.topicsQos

/-- `Subscribe::into_iter`, collected. -/
def Subscribe.intoIter (s : Subscribe) : Option (List Nat) := do
  let len := subscribeLen s
  let hdr ← eHeader 8 ⟨false, false, true, false⟩
  let pl ← ePacketlen len
  let tq ← eTopicsQos s.topicsQos
  pure (hdr ++ pl ++ eU16 s.packetId ++ tq)

/-- The `Unsubscribe` packet record. -/
structure Unsubscribe where
  packetId : Nat
  topics : List (List Nat)
deriving DecidableEq, Repr

/-- `Unsubscribe::try_from_iter`. -/
def Unsubscribe.tryFromIter (bs : List Nat) : Except Decoding Unsubscribe :=
  match dHeader bs with
  | .error e => .error (classify e)
  | .ok ((t, flags), r1) =>
    if t = 10 ∧ flags = ⟨false, false, true, false⟩ then
      match dPacketlen r1 with
      | .error e => .error (classify e)
      | .ok (len, r2) =>
        match (dbind dU16 fun packetId =>
               dbind (dTopicsAux (r2.take len).length) fun topics =>
               dpure { packetId, topics : Unsubscribe }) (r2.take len) with
        | .error e => .error (classify e)
        | .ok (s, _) => .ok s
    else .error (classify .invalidPacketTypeHeader)

/-- The `Length` chain of `Unsubscribe::into_iter`. -/
def unsubscribeLen (u : Unsubscribe) : Nat := lenU16 + lenTopics u.topics

/-- `Unsubscribe::into_iter`, collected. -/
def Unsubscribe.intoIter (u : Unsubscribe) : Option (List Nat) := do
  let len := unsubscribeLen u
  let hdr ← eHeader 10 ⟨false, false, true, false⟩
  let pl ← ePacketlen len
  let ts ← eTopics u.topics
  pure (hdr ++ pl ++ eU16 u.packetId ++ ts)

/-! ## Type-erased packet (`src/packets/packet.rs`) -/

/-- The type-erased `Packet` union over the 14 variants.  ACK-like and
signal-like variants carry their template payloads. -/
inductive Packet where
  | connack (p : Connack)
  | connect (p : Connect)
  | disconnect
  | pingreq
  | pingresp
  | puback (packetId : Nat)
  | pubcomp (packetId : Nat)
  | publish (p : Publish)
  | pubrec (packetId : Nat)
  | pubrel (packetId : Nat)
  | suback (packetId : Nat)
  | subscribe (p : Subscribe)
  | unsuback (packetId : Nat)
  | unsubscribe (p : Unsubscribe)
deriving DecidableEq, Repr

/-- `Packet::try_from_iter` — takes the first byte off the peekable source
with `next()` (so the byte is *consumed*, not peeked), dispatches on its
high nibble, and hands the remaining stream — without the consumed byte —
to the selected variant decoder.  An unknown nibble is
`"Unknown packet type"`; an empty source is `"Empty packet"`. -/
def Packet.tryFromIter (bs : List Nat) : Except Decoding Packet :=
  match bs with
  | [] => .error (classify .emptyPacket)
  | header :: rest =>
    if header >>> 4 = 2 then (Connack.tryFromIter rest).map .connack
    else if header >>> 4 = 1 then (Connect.tryFromIter rest).map .connect
    else if header >>> 4 = 14 then (signalTryFromIter 14 rest).map fun _ => .disconnect
    else if header >>> 4 = 12 then (signalTryFromIter 12 rest).map fun _ => .pingreq
    else if header >>> 4 = 13 then (signalTryFromIter 13 rest).map fun _ => .pingresp
    else if header >>> 4 = 4 then (acklikeTryFromIter 4 rest).map .puback
    else if header >>> 4 = 7 then (acklikeTryFromIter 7 rest).map .pubcomp
    else if header >>> 4 = 3 then (Publish.tryFromIter rest).map .publish
    else if header >>> 4 = 5 then (acklikeTryFromIter 5 rest).map .pubrec
    else if header >>> 4 = 6 then (acklikeTryFromIter 6 rest).map .pubrel
    else if header >>> 4 = 9 then (acklikeTryFromIter 9 rest).map .suback
    else if header >>> 4 = 8 then (Subscribe.tryFromIter rest).map .subscribe
    else if header >>> 4 = 11 then (acklikeTryFromIter 11 rest).map .unsuback
    else if header >>> 4 = 10 then (Unsubscribe.tryFromIter rest).map .unsubscribe
    else .error (classify .unknownPacketType)

/-- `Packet::into_iter` — dispatches to the selected variant's encoder. -/
def Packet.intoIter : Packet → Option (List Nat)
  | .connack p => p.intoIter
  | .connect p => p.intoIter
  | .disconnect => signalIntoIter 14
  | .pingreq => signalIntoIter 12
  | .pingresp => signalIntoIter 13
  | .puback packetId => acklikeIntoIter 4 packetId
  | .pubcomp packetId => acklikeIntoIter 7 packetId
  | .publish p => p.intoIter
  | .pubrec packetId => acklikeIntoIter 5 packetId
  | .pubrel packetId => acklikeIntoIter 6 packetId
  | .suback packetId => acklikeIntoIter 9 packetId
  | .subscribe p => p.intoIter
  | .unsuback packetId => acklikeIntoIter 11 packetId
  | .unsubscribe p => p.intoIter

/-! ## The container backends (`src/anyvec.rs`) -/

/-- `ArrayVec::try_push` (also `heapless::Vec::push`): append when below
capacity, fail otherwise. -/
def arrayvecPush {α : Type} (cap : Nat) (xs : List α) (e : α) : Option (List α) :=
  if xs.length < cap then some (xs ++ [e]) else none

/-- The `extend` implementation shared by the `arrayvec` and `heapless`
backends (anyvec.rs lines 66-77 and 87-98): push the elements one at a
time, stopping at the first failing push.  The result pairs the final
container contents with the success flag (`false` = the `Memory` error
was returned). -/
def arrayvecExtend {α : Type} (cap : Nat) (xs : List α) : List α → List α × Bool
  | [] => (xs, true)
  | e :: es =>
    match arrayvecPush cap xs e with
    | none => (xs, false)
    | some xs' => arrayvecExtend cap xs' es

/-! ## Bit-arithmetic helper lemmas -/

theorem shiftLeft7_or_eq_add (v m : Nat) (hm : m < 128) : (v <<< 7) ||| m = v * 128 + m := by
  apply Nat.eq_of_testBit_eq
  intro j
  rw [Nat.testBit_or, Nat.testBit_shiftLeft]
  have h128 : v * 128 + m = 2 ^ 7 * v + m := by ring_nf
  rw [h128, Nat.testBit_mul_pow_two_add v (by omega : m < 2 ^ 7) j]
  by_cases hj : j < 7
  · simp [hj, Nat.not_le.mpr hj]
  · have hj7 : 7 ≤ j := by omega
    have hmf : m.testBit j = false := by
      apply Nat.testBit_eq_false_of_lt
      calc m < 128 := hm
        _ = 2 ^ 7 := by norm_num
        _ ≤ 2 ^ j := Nat.pow_le_pow_right (by omega) hj7
    simp [hj, hj7, hmf]

theorem and127_eq_mod (x : Nat) : x &&& 127 = x % 128 := by
  simpa using Nat.and_pow_two_sub_one_eq_mod x 7

theorem or128_eq_add (m : Nat) (hm : m < 128) : m ||| 128 = m + 128 := by
  have : (1 <<< 7) ||| m = 1 * 128 + m := shiftLeft7_or_eq_add 1 m hm
  simpa [Nat.lor_comm, Nat.add_comm] using this

theorem and_128_testBit (m : Nat) : m &&& 128 = (m.testBit 7).toNat * 128 := by
  have := Nat.and_two_pow m 7
  simpa using this

theorem and128_of_lt (m : Nat) (hm : m < 128) : m &&& 128 = 0 := by
  rw [and_128_testBit]
  have : m.testBit 7 = false := Nat.testBit_eq_false_of_lt (by omega)
  simp [this]

theorem and128_of_add (m : Nat) (hm : m < 128) : (m + 128) &&& 128 = 128 := by
  rw [and_128_testBit]
  have h : m + 128 = 2 ^ 7 * 1 + m := by omega
  have : (m + 128).testBit 7 = true := by
    rw [h, Nat.testBit_mul_pow_two_add 1 (by omega : m < 2 ^ 7) 7]
    simp
  simp [this]

theorem shiftRight7mul_eq_div (x k : Nat) : x >>> (7 * k) = x / 128 ^ k := by
  rw [Nat.shiftRight_eq_div_pow, Nat.pow_mul]

/-! ## Exact stream consumption

`Consumes m c a` says the decoding step `m` consumes exactly the bytes `c`
off the front of the stream, yields `a`, and truncates (with the
`"Truncated input"` error) on every strict prefix of `c`.  This is the key
tool for the encode/decode round-trip and truncation theorems: each
primitive consumes exactly the bytes its encoder twin emits. -/

structure Consumes {α : Type} (m : DecM α) (c : List Nat) (a : α) : Prop where
  ok : ∀ rest, m (c ++ rest) = .ok (a, rest)
  tr : ∀ k, k < c.length → m (c.take k) = .error .truncatedInput

theorem consumes_pure {α : Type} (a : α) : Consumes (dpure a) [] a where
  ok := fun _ => rfl
  tr := fun k hk => by simp at hk

theorem consumes_bind {α β : Type} {m : DecM α} {f : α → DecM β}
    {c₁ c₂ : List Nat} {a : α} {b : β}
    (h₁ : Consumes m c₁ a) (h₂ : Consumes (f a) c₂ b) :
    Consumes (dbind m f) (c₁ ++ c₂) b where
  ok := fun rest => by
    rw [List.append_assoc]
    show dbind m f (c₁ ++ (c₂ ++ rest)) = _
    unfold dbind
    rw [h₁.ok (c₂ ++ rest)]
    exact h₂.ok rest
  tr := fun k hk => by
    rcases Nat.lt_or_ge k c₁.length with hlt | hge
    · rw [List.take_append_of_le_length (Nat.le_of_lt hlt)]
      unfold dbind
      rw [h₁.tr k hlt]
    · obtain ⟨j, rfl⟩ : ∃ j, k = c₁.length + j := ⟨k - c₁.length, by omega⟩
      have hj : j < c₂.length := by
        have := hk
        rw [List.length_append] at this
        omega
      rw [List.take_append]
      unfold dbind
      rw [h₁.ok (c₂.take j)]
      exact h₂.tr j hj

theorem consumes_u8 (b : Nat) : Consumes dU8 [b] b where
  ok := fun rest => rfl
  tr := fun k hk => by
    have hk0 : k = 0 := by simpa using hk
    subst hk0
    rfl

theorem consumes_raw (c : List Nat) : Consumes (dRaw c.length) c c := by
  induction c with
  | nil => exact consumes_pure []
  | cons b r ih =>
    have h : Consumes (dbind dU8 fun x => dbind (dRaw r.length) fun y => dpure (x :: y))
        ([b] ++ r) (b :: r) := by
      apply consumes_bind (consumes_u8 b)
      have : Consumes (dbind (dRaw r.length) fun y => dpure (b :: y)) (r ++ []) (b :: r) :=
        consumes_bind ih (consumes_pure (b :: r))
      simpa using this
    simpa [dRaw] using h

theorem consumes_u16 (hi lo : Nat) : Consumes dU16 [hi, lo] (256 * hi + lo) := by
  have h : Consumes (dbind (dRaw 2) fun r => dpure (be16 r)) ([hi, lo] ++ []) (256 * hi + lo) :=
    @consumes_bind _ _ (dRaw 2) (fun r => dpure (be16 r)) [hi, lo] [] [hi, lo] _
      (consumes_raw [hi, lo]) (consumes_pure (be16 [hi, lo]))
  simpa [dU16] using h

theorem eU16_be16 (v : Nat) : 256 * (v / 256) + v % 256 = v := Nat.div_add_mod v 256

theorem consumes_eU16 (v : Nat) : Consumes dU16 (eU16 v) v := by
  have h := consumes_u16 (v / 256) (v % 256)
  rwa [eU16_be16] at h

theorem consumes_bytes (b : List Nat) : Consumes dBytes (eU16 b.length ++ b) b := by
  have h : Consumes (dbind dU16 fun len => dRaw len) (eU16 b.length ++ b) b :=
    consumes_bind (consumes_eU16 b.length) (consumes_raw b)
  simpa [dBytes] using h

theorem consumes_bitmap (b : Nat) : Consumes dBitmap [b] (byteToBits b) := by
  have h : Consumes (dbind dU8 fun x => dpure (byteToBits x)) ([b] ++ []) (byteToBits b) :=
    consumes_bind (consumes_u8 b) (consumes_pure _)
  simpa [dBitmap] using h

theorem consumes_header (b : Nat) : Consumes dHeader [b] (b >>> 4, byteToBits4 b) := by
  have h : Consumes (dbind dU8 fun x => dpure (x >>> 4, byteToBits4 x)) ([b] ++ [])
      (b >>> 4, byteToBits4 b) :=
    consumes_bind (consumes_u8 b) (consumes_pure _)
  simpa [dHeader] using h

theorem consumes_optionalU16_some (v : Nat) :
    Consumes (dOptionalU16 true) (eU16 v) (some v) := by
  have h : Consumes (dbind dU16 fun x => dpure (some x)) (eU16 v ++ []) (some v) :=
    consumes_bind (consumes_eU16 v) (consumes_pure _)
  simpa [dOptionalU16] using h

theorem consumes_optionalU16_none : Consumes (dOptionalU16 false) [] none := by
  simpa [dOptionalU16] using consumes_pure (none : Option Nat)

theorem consumes_optionalBytes_some (b : List Nat) :
    Consumes (dOptionalBytes true) (eU16 b.length ++ b) (some b) := by
  have h : Consumes (dbind dBytes fun x => dpure (some x)) ((eU16 b.length ++ b) ++ [])
      (some b) :=
    consumes_bind (consumes_bytes b) (consumes_pure _)
  simpa [dOptionalBytes] using h

theorem consumes_optionalBytes_none : Consumes (dOptionalBytes false) [] none := by
  simpa [dOptionalBytes] using consumes_pure (none : Option (List Nat))

/-! ### Remaining-length field: encoder bytes and their exact decoding -/

theorem plBytes_one (n : Nat) : plBytes 1 n = [n % 128] := by
  simp [plBytes, and127_eq_mod]

theorem plBytes_two (s n : Nat) :
    plBytes (s + 2) n = (n / 128 ^ (s + 1) % 128 + 128) :: plBytes (s + 1) n := by
  have hmod : (n >>> (7 * (s + 1))) &&& 127 = n / 128 ^ (s + 1) % 128 := by
    rw [and127_eq_mod, shiftRight7mul_eq_div]
  have hlt : n / 128 ^ (s + 1) % 128 < 128 := Nat.mod_lt _ (by omega)
  simp [plBytes, hmod, or128_eq_add _ hlt]

theorem plBytes_length (s n : Nat) : (plBytes s n).length = s := by
  induction s with
  | zero => rfl
  | succ s ih =>
    match s, ih with
    | 0, _ => rfl
    | s + 1, ih => rw [plBytes_two]; simp [ih]

theorem dPacketlenAux_low (pos value b : Nat) (rest : List Nat) (hb : b < 128) :
    dPacketlenAux pos value (b :: rest) = .ok (value * 128 + b, rest) := by
  have h1 : b &&& 127 = b := by rw [and127_eq_mod, Nat.mod_eq_of_lt hb]
  have h2 : b &&& 128 = 0 := and128_of_lt b hb
  simp [dPacketlenAux, h1, h2, shiftLeft7_or_eq_add value b hb]

theorem dPacketlenAux_high (pos value m : Nat) (rest : List Nat) (hm : m < 128)
    (hnz : ¬(value = 0 ∧ m = 0)) (hpos : pos ≤ 2) :
    dPacketlenAux pos value ((m + 128) :: rest) =
      dPacketlenAux (pos + 1) (value * 128 + m) rest := by
  have h1 : (m + 128) &&& 127 = m := by
    rw [and127_eq_mod]
    omega
  have h2 : (m + 128) &&& 128 = 128 := and128_of_add m hm
  have h3 : value <<< 7 ||| m = value * 128 + m := shiftLeft7_or_eq_add value m hm
  have h4 : ¬(m + 128 = 128 ∧ value * 128 + m = 0) := by omega
  simp only [dPacketlenAux, h1, h2, h3]
  rw [if_pos (by simp), if_neg h4, if_neg (by omega)]

theorem dPacketlenAux_plBytes (s : Nat) : ∀ pos value n rest, 1 ≤ s → pos + s ≤ 4 →
    (value = 0 → s = 1 ∨ n / 128 ^ (s - 1) % 128 ≠ 0) →
    dPacketlenAux pos value (plBytes s n ++ rest) =
      .ok (value * 128 ^ s + n % 128 ^ s, rest) := by
  induction s with
  | zero => omega
  | succ s ih =>
    match s, ih with
    | 0, _ =>
      intro pos value n rest _ _ _
      rw [plBytes_one]
      simpa [pow_one] using
        dPacketlenAux_low pos value (n % 128) rest (Nat.mod_lt _ (by omega))
    | s + 1, ih =>
      intro pos value n rest _ hpos hlead
      rw [plBytes_two]
      set m := n / 128 ^ (s + 1) % 128 with hm
      have hmlt : m < 128 := Nat.mod_lt _ (by omega)
      have hnz : ¬(value = 0 ∧ m = 0) := by
        rintro ⟨hv, hm0⟩
        rcases hlead hv with h1 | h2
        · omega
        · exact h2 (by simpa using hm0)
      rw [List.cons_append, dPacketlenAux_high pos value m (plBytes (s + 1) n ++ rest)
            hmlt hnz (by omega)]
      rw [ih (pos + 1) (value * 128 + m) n rest (by omega) (by omega)
            (by rintro h0; exact absurd ⟨by omega, by omega⟩ hnz)]
      congr 2
      have hsucc : n % 128 ^ (s + 2) = n % 128 ^ (s + 1) + 128 ^ (s + 1) * m :=
        Nat.mod_pow_succ
      ring_nf
      ring_nf at hsucc
      omega

theorem dPacketlenAux_plBytes_tr (s : Nat) : ∀ pos value n, 1 ≤ s → pos + s ≤ 4 →
    (value = 0 → s = 1 ∨ n / 128 ^ (s - 1) % 128 ≠ 0) →
    ∀ k, k < s →
      dPacketlenAux pos value ((plBytes s n).take k) = .error .truncatedInput := by
  induction s with
  | zero => omega
  | succ s ih =>
    match s, ih with
    | 0, _ =>
      intro pos value n _ _ _ k hk
      have hk0 : k = 0 := by omega
      subst hk0
      rfl
    | s + 1, ih =>
      intro pos value n _ hpos hlead k hk
      match k with
      | 0 => rfl
      | j + 1 =>
        rw [plBytes_two]
        set m := n / 128 ^ (s + 1) % 128 with hm
        have hmlt : m < 128 := Nat.mod_lt _ (by omega)
        have hnz : ¬(value = 0 ∧ m = 0) := by
          rintro ⟨hv, hm0⟩
          rcases hlead hv with h1 | h2
          · omega
          · exact h2 (by simpa using hm0)
        rw [List.take_succ_cons,
            dPacketlenAux_high pos value m ((plBytes (s + 1) n).take j) hmlt hnz (by omega)]
        exact ih (pos + 1) (value * 128 + m) n (by omega) (by omega)
          (by rintro h0; exact absurd ⟨by omega, by omega⟩ hnz) j (by omega)

theorem plSize_pos (n : Nat) : 1 ≤ plSize n := by
  unfold plSize
  split <;> [omega; split <;> [omega; split <;> omega]]

theorem plSize_le_four (n : Nat) : plSize n ≤ 4 := by
  unfold plSize
  split <;> [omega; split <;> [omega; split <;> omega]]

theorem plSize_spec (n : Nat) (h : n < 2 ^ 28) :
    n < 128 ^ plSize n ∧ (plSize n = 1 ∨ 128 ^ (plSize n - 1) ≤ n) := by
  unfold plSize
  split
  · norm_num
    omega
  · split
    · norm_num
      omega
    · split
      · norm_num
        omega
      · norm_num
        omega

theorem consumes_packetlen (n : Nat) (h : n < 2 ^ 28) :
    Consumes dPacketlen (plBytes (plSize n) n) n := by
  obtain ⟨hub, hlb⟩ := plSize_spec n h
  have hlead : (0 : Nat) = 0 → plSize n = 1 ∨ n / 128 ^ (plSize n - 1) % 128 ≠ 0 := by
    intro _
    rcases hlb with h1 | h2
    · exact Or.inl h1
    · right
      have h1le : 1 ≤ n / 128 ^ (plSize n - 1) := (Nat.one_le_div_iff (by positivity)).mpr h2
      have hdivlt : n / 128 ^ (plSize n - 1) < 128 := by
        rw [Nat.div_lt_iff_lt_mul (by positivity)]
        calc n < 128 ^ plSize n := hub
          _ = 128 ^ (plSize n - 1 + 1) := by congr 1; have := plSize_pos n; omega
          _ = 128 ^ (plSize n - 1) * 128 := by rw [pow_succ]
          _ = 128 * 128 ^ (plSize n - 1) := by ring
      rw [Nat.mod_eq_of_lt hdivlt]
      omega
  constructor
  · intro rest
    show dPacketlenAux 0 0 _ = _
    rw [dPacketlenAux_plBytes (plSize n) 0 0 n rest (plSize_pos n)
          (by have := plSize_le_four n; omega) hlead]
    rw [Nat.zero_mul, Nat.zero_add, Nat.mod_eq_of_lt hub]
  · intro k hk
    show dPacketlenAux 0 0 _ = _
    rw [plBytes_length] at hk
    exact dPacketlenAux_plBytes_tr (plSize n) 0 0 n (plSize_pos n)
      (by have := plSize_le_four n; omega) hlead k hk

/-! ### Bit round-trips for bitmap and header bytes -/

theorem byteToBits_bitsToByte (b7 b6 b5 b4 b3 b2 b1 b0 : Bool) :
    byteToBits (bitsToByte ⟨b7, b6, b5, b4, b3, b2, b1, b0⟩) =
      ⟨b7, b6, b5, b4, b3, b2, b1, b0⟩ := by
  cases b7 <;> cases b6 <;> cases b5 <;> cases b4 <;> cases b3 <;> cases b2 <;>
    cases b1 <;> cases b0 <;> decide

theorem willQos_reconstruct (w : Nat) (hw : w < 4) :
    ((((w >>> 1 != 0) : Bool).toNat <<< 1) ||| ((w &&& 1 != 0) : Bool).toNat) = w := by
  interval_cases w <;> rfl

theorem headerByte_destruct (t : Nat) (ht : t ≤ 15) (b3 b2 b1 b0 : Bool) :
    ((t <<< 4) ||| (b3.toNat <<< 3) ||| (b2.toNat <<< 2) ||| (b1.toNat <<< 1) ||| b0.toNat) >>> 4
      = t ∧
    byteToBits4 ((t <<< 4) ||| (b3.toNat <<< 3) ||| (b2.toNat <<< 2) ||| (b1.toNat <<< 1)
      ||| b0.toNat) = ⟨b3, b2, b1, b0⟩ := by
  interval_cases t <;> cases b3 <;> cases b2 <;> cases b1 <;> cases b0 <;> exact ⟨rfl, rfl⟩

theorem consumes_optionalBytesEnc (o : Option (List Nat)) :
    Consumes (dOptionalBytes o.isSome) (optBytesEnc o) o := by
  cases o with
  | none => simpa [optBytesEnc] using consumes_optionalBytes_none
  | some t => simpa [optBytesEnc] using consumes_optionalBytes_some t

/-! ### Valid CONNECT values

A valid `Connect` value is one whose fields respect the Rust types and the
encoder's documented preconditions: `keep_alive_secs` is a `u16`, the QoS
carries at most two bits, the byte buffers hold byte values and fit a
`u16` length prefix, and the will topic and message are present together
(the invariant every publicly reachable value satisfies, see the
reachability theorem). -/

/-- All entries are byte values (`u8`). -/
def ByteVals (b : List Nat) : Prop := ∀ x ∈ b, x < 256

instance (b : List Nat) : Decidable (ByteVals b) :=
  inferInstanceAs (Decidable (∀ x ∈ b, x < 256))

/-- An optional byte field holds byte values and fits a `u16` length. -/
def OptField (o : Option (List Nat)) : Prop :=
  ∀ t, o = some t → ByteVals t ∧ t.length ≤ 65535

structure ConnectValid (c : Connect) : Prop where
  keepAlive_lt : c.keepAliveSecs < 65536
  willQos_lt : c.willQos < 4
  clientId_bytes : ByteVals c.clientId
  clientId_len : c.clientId.length ≤ 65535
  willTopic_ok : OptField c.willTopic
  willMessage_ok : OptField c.willMessage
  username_ok : OptField c.username
  password_ok : OptField c.password
  will_iff : c.willTopic.isSome = c.willMessage.isSome

theorem consumes_connectBody (c : Connect) (h : ConnectValid c) :
    Consumes connectBody (connectBodyBytes c) c := by
  have hbitmap : Consumes dBitmap (eBitmap (connectFlags c))
      ⟨c.username.isSome, c.password.isSome, c.willRetain, c.willQos >>> 1 != 0,
       c.willQos &&& 1 != 0, c.willTopic.isSome, c.cleanSession, false⟩ := by
    have h0 := consumes_bitmap (bitsToByte (connectFlags c))
    rwa [show byteToBits (bitsToByte (connectFlags c)) =
        ⟨c.username.isSome, c.password.isSome, c.willRetain, c.willQos >>> 1 != 0,
         c.willQos &&& 1 != 0, c.willTopic.isSome, c.cleanSession, false⟩ from
      byteToBits_bitsToByte _ _ _ _ _ _ _ _] at h0
  have hwm : Consumes (dOptionalBytes c.willTopic.isSome) (optBytesEnc c.willMessage)
      c.willMessage := h.will_iff ▸ consumes_optionalBytesEnc c.willMessage
  have hfinal : Consumes (dpure (⟨c.keepAliveSecs, c.cleanSession, c.willRetain,
      (((c.willQos >>> 1 != 0 : Bool)).toNat <<< 1) ||| ((c.willQos &&& 1 != 0 : Bool)).toNat,
      c.clientId, c.willTopic, c.willMessage, c.username, c.password⟩ : Connect)) [] c := by
    rw [willQos_reconstruct c.willQos h.willQos_lt]
    exact consumes_pure c
  have hpw : Consumes
      (dbind (dOptionalBytes c.password.isSome) fun password =>
        dpure (⟨c.keepAliveSecs, c.cleanSession, c.willRetain,
          (((c.willQos >>> 1 != 0 : Bool)).toNat <<< 1) |||
            ((c.willQos &&& 1 != 0 : Bool)).toNat,
          c.clientId, c.willTopic, c.willMessage, c.username, password⟩ : Connect))
      (optBytesEnc c.password) c := by
    simpa using @consumes_bind _ _ (dOptionalBytes c.password.isSome)
      (fun password =>
        dpure (⟨c.keepAliveSecs, c.cleanSession, c.willRetain,
          (((c.willQos >>> 1 != 0 : Bool)).toNat <<< 1) |||
            ((c.willQos &&& 1 != 0 : Bool)).toNat,
          c.clientId, c.willTopic, c.willMessage, c.username, password⟩ : Connect))
      (optBytesEnc c.password) [] c.password c
      (consumes_optionalBytesEnc c.password) hfinal
  unfold connectBody connectBodyBytes
  refine consumes_bind (consumes_raw protocolName) ?_
  simp only []
  rw [if_true]
  refine consumes_bind (consumes_u8 0x04) ?_
  simp only []
  rw [if_true]
  refine consumes_bind hbitmap ?_
  simp only []
  refine consumes_bind (consumes_eU16 c.keepAliveSecs) ?_
  refine consumes_bind (consumes_bytes c.clientId) ?_
  refine consumes_bind (consumes_optionalBytesEnc c.willTopic) ?_
  refine consumes_bind hwm ?_
  refine consumes_bind (consumes_optionalBytesEnc c.username) ?_
  exact hpw

theorem optBytesEnc_length (o : Option (List Nat)) :
    (optBytesEnc o).length = lenOptionalBytes o := by
  cases o with
  | none => rfl
  | some t => simp [optBytesEnc, lenOptionalBytes, lenBytes, eU16]; omega

theorem connectBodyBytes_length (c : Connect) :
    (connectBodyBytes c).length = connectLen c := by
  simp [connectBodyBytes, connectLen, optBytesEnc_length, protocolName, eU16, eBitmap,
        lenRaw, lenU8, lenBitmap, lenU16, lenBytes]
  omega

theorem lenOptionalBytes_le (o : Option (List Nat)) (ho : OptField o) :
    lenOptionalBytes o ≤ 65537 := by
  cases o with
  | none => simp [lenOptionalBytes]
  | some t =>
    have := (ho t rfl).2
    simp [lenOptionalBytes, lenBytes]
    omega

theorem connectLen_lt (c : Connect) (h : ConnectValid c) : connectLen c < 2 ^ 28 := by
  have h1 := lenOptionalBytes_le c.willTopic h.willTopic_ok
  have h2 := lenOptionalBytes_le c.willMessage h.willMessage_ok
  have h3 := lenOptionalBytes_le c.username h.username_ok
  have h4 := lenOptionalBytes_le c.password h.password_ok
  have h5 := h.clientId_len
  simp [connectLen, lenRaw, lenU8, lenBitmap, lenU16, lenBytes, protocolName]
  omega

theorem eOptionalBytes_eq (o : Option (List Nat)) (ho : OptField o) :
    eOptionalBytes o = some (optBytesEnc o) := by
  cases o with
  | none => rfl
  | some t =>
    have := (ho t rfl).2
    simp [eOptionalBytes, eBytes, optBytesEnc, this]

theorem connect_intoIter_eq (c : Connect) (h : ConnectValid c) :
    c.intoIter = some (0x10 ::
      (plBytes (plSize (connectLen c)) (connectLen c) ++ connectBodyBytes c)) := by
  have hlen := connectLen_lt c h
  have h1 : eHeader 1 ⟨false, false, false, false⟩ = some [0x10] := rfl
  have h2 : ePacketlen (connectLen c) =
      some (plBytes (plSize (connectLen c)) (connectLen c)) := by
    unfold ePacketlen; rw [if_pos hlen]
  have h3 : eBytes c.clientId = some (eU16 c.clientId.length ++ c.clientId) := by
    unfold eBytes; rw [if_pos h.clientId_len]
  simp only [Connect.intoIter, h1, h2, h3,
    eOptionalBytes_eq c.willTopic h.willTopic_ok,
    eOptionalBytes_eq c.willMessage h.willMessage_ok,
    eOptionalBytes_eq c.username h.username_ok,
    eOptionalBytes_eq c.password h.password_ok,
    Option.bind_eq_bind, Option.some_bind]
  simp [connectBodyBytes, eRaw, eU8, List.append_assoc]



theorem connect_roundtrip (c : Connect) (h : ConnectValid c) :
    ∃ bs, c.intoIter = some bs ∧ Connect.tryFromIter bs = .ok c := by
  refine ⟨_, connect_intoIter_eq c h, ?_⟩
  have hlen := connectLen_lt c h
  unfold Connect.tryFromIter
  have hhdr := (consumes_header 0x10).ok
    (plBytes (plSize (connectLen c)) (connectLen c) ++ connectBodyBytes c)
  rw [show ([0x10] : List Nat) ++ (plBytes (plSize (connectLen c)) (connectLen c) ++
        connectBodyBytes c) =
      0x10 :: (plBytes (plSize (connectLen c)) (connectLen c) ++ connectBodyBytes c) from rfl]
    at hhdr
  rw [hhdr]
  simp only [show (0x10 : Nat) >>> 4 = 1 from rfl, if_true]
  rw [(consumes_packetlen (connectLen c) hlen).ok (connectBodyBytes c)]
  simp only []
  rw [show (connectBodyBytes c).take (connectLen c) = connectBodyBytes c from by
    rw [← connectBodyBytes_length c]; exact List.take_length _]
  have hbody := (consumes_connectBody c h).ok []
  rw [List.append_nil] at hbody
  rw [hbody]

theorem connect_truncation (c : Connect) (h : ConnectValid c) (bs : List Nat)
    (hbs : c.intoIter = some bs) (k : Nat) (hk : k < bs.length) :
    Connect.tryFromIter (bs.take k) = .error .truncated := by
  have hlen := connectLen_lt c h
  rw [connect_intoIter_eq c h] at hbs
  have hbs' : bs = 0x10 ::
      (plBytes (plSize (connectLen c)) (connectLen c) ++ connectBodyBytes c) :=
    Option.some_injective _ hbs.symm
  subst hbs'
  match k with
  | 0 => rfl
  | k + 1 =>
    rw [List.take_succ_cons]
    unfold Connect.tryFromIter
    have hhdr := (consumes_header 0x10).ok
      ((plBytes (plSize (connectLen c)) (connectLen c) ++ connectBodyBytes c).take k)
    rw [show ∀ x : List Nat, ([0x10] : List Nat) ++ x = 0x10 :: x from fun _ => rfl] at hhdr
    rw [hhdr]
    simp only [show (0x10 : Nat) >>> 4 = 1 from rfl, if_true]
    have hklt : k < (plBytes (plSize (connectLen c)) (connectLen c)).length +
        (connectBodyBytes c).length := by
      simp only [List.length_cons, List.length_append] at hk
      omega
    rcases Nat.lt_or_ge k (plBytes (plSize (connectLen c)) (connectLen c)).length with
      hlt | hge
    · rw [List.take_append_of_le_length (Nat.le_of_lt hlt)]
      rw [(consumes_packetlen (connectLen c) hlen).tr k hlt]
      rfl
    · obtain ⟨i, rfl⟩ := Nat.exists_eq_add_of_le hge
      have hi : i < (connectBodyBytes c).length := by omega
      rw [List.take_append]
      rw [(consumes_packetlen (connectLen c) hlen).ok ((connectBodyBytes c).take i)]
      simp only []
      rw [List.take_take]
      rw [show min (connectLen c) i = i from by
        rw [← connectBodyBytes_length c]; omega]
      rw [(consumes_connectBody c h).tr i hi]
      rfl

/-! ### Length agreement: the meter matches the emitted byte count -/

theorem eBytes_length (b out : List Nat) (h : eBytes b = some out) :
    out.length = lenBytes b := by
  unfold eBytes at h
  split at h
  · cases h
    simp [eU16, lenBytes]
    omega
  · cases h

theorem eHeader_length (t : Nat) (f : Bits4) (out : List Nat) (h : eHeader t f = some out) :
    lenHeader t = some out.length := by
  unfold eHeader at h
  unfold lenHeader
  split at h
  · cases h
    rw [if_pos (by omega)]
    rfl
  · cases h

theorem ePacketlen_length (n : Nat) (out : List Nat) (h : ePacketlen n = some out) :
    lenPacketlen n = some out.length := by
  unfold ePacketlen at h
  unfold lenPacketlen
  split at h
  · cases h
    rw [if_pos (by omega)]
    rw [plBytes_length]
  · cases h

theorem eOptionalU16_length (o : Option Nat) :
    (eOptionalU16 o).length = lenOptionalU16 o := by
  cases o <;> rfl

theorem eOptionalBytes_length (o : Option (List Nat)) (out : List Nat)
    (h : eOptionalBytes o = some out) : out.length = lenOptionalBytes o := by
  cases o with
  | none =>
    cases h
    rfl
  | some b => exact eBytes_length b out h

theorem eTopics_length (ts : List (List Nat)) (out : List Nat) (h : eTopics ts = some out) :
    out.length = lenTopics ts := by
  induction ts generalizing out with
  | nil =>
    cases h
    rfl
  | cons t r ih =>
    unfold eTopics at h
    cases htb : eBytes t with
    | none => rw [htb] at h; cases h
    | some tb =>
      rw [htb] at h
      cases hrb : eTopics r with
      | none => rw [hrb] at h; cases h
      | some rb =>
        rw [hrb] at h
        cases h
        simp only [List.length_append, lenTopics]
        rw [eBytes_length t tb htb, ih rb hrb]

theorem eTopicsQos_length (ts : List (List Nat × Nat)) (out : List Nat)
    (h : eTopicsQos ts = some out) : out.length = lenTopicsQos ts := by
  induction ts generalizing out with
  | nil =>
    cases h
    rfl
  | cons tq r ih =>
    obtain ⟨t, q⟩ := tq
    unfold eTopicsQos at h
    cases htb : eBytes t with
    | none => rw [htb] at h; cases h
    | some tb =>
      rw [htb] at h
      cases hrb : eTopicsQos r with
      | none => rw [hrb] at h; cases h
      | some rb =>
        rw [hrb] at h
        cases h
        have e1 := eBytes_length t tb htb
        have e2 := ih rb hrb
        simp only [List.length_append, lenTopicsQos, lenU8, List.length_cons,
          List.length_nil]
        omega

theorem connect_length_agreement (c : Connect) (h : ConnectValid c) :
    ∃ bs, c.intoIter = some bs ∧
      bs.length = 1 + plSize (connectLen c) + connectLen c := by
  refine ⟨_, connect_intoIter_eq c h, ?_⟩
  simp only [List.length_cons, List.length_append, plBytes_length, connectBodyBytes_length]
  omega

/-- The first byte emitted by `Publish::into_iter`:
`header(3, [dup, qos_hi, qos_lo, retain])`. -/
def publishHeaderByte (p : Publish) : Nat :=
  (3 <<< 4) ||| (p.dup.toNat <<< 3) ||| ((p.qos >>> 1 != 0 : Bool).toNat <<< 2) |||
  ((p.qos &&& 1 != 0 : Bool).toNat <<< 1) ||| p.retain.toNat

theorem publish_intoIter_eq (p : Publish) (ht : p.topic.length ≤ 65535)
    (hl : publishLen p < 2 ^ 28) :
    p.intoIter = some ([publishHeaderByte p] ++ plBytes (plSize (publishLen p)) (publishLen p)
      ++ (eU16 p.topic.length ++ p.topic) ++ eOptionalU16 p.packetId ++ eRaw p.payload) := by
  have h1 : eHeader 3 ⟨p.dup, p.qos >>> 1 != 0, p.qos &&& 1 != 0, p.retain⟩ =
      some [publishHeaderByte p] := by
    unfold eHeader publishHeaderByte
    rw [if_pos (by omega)]
  have h2 : ePacketlen (publishLen p) = some (plBytes (plSize (publishLen p)) (publishLen p)) := by
    unfold ePacketlen
    rw [if_pos hl]
  have h3 : eBytes p.topic = some (eU16 p.topic.length ++ p.topic) := by
    unfold eBytes
    rw [if_pos ht]
  simp only [Publish.intoIter, h1, h2, h3, Option.bind_eq_bind, Option.some_bind]
  rfl

theorem publish_length_agreement (p : Publish) (ht : p.topic.length ≤ 65535)
    (hl : publishLen p < 2 ^ 28) :
    ∃ bs, p.intoIter = some bs ∧
      bs.length = 1 + plSize (publishLen p) + publishLen p := by
  refine ⟨_, publish_intoIter_eq p ht hl, ?_⟩
  simp only [List.length_append, List.length_cons, List.length_nil, plBytes_length,
    eU16, eOptionalU16_length, eRaw, publishLen, lenBytes, lenRaw]
  omega

/-! ### Inversion of successful decodes (for the reachability invariant) -/

theorem dbind_ok {α β : Type} {m : DecM α} {f : α → DecM β} {bs : List Nat}
    {r : β × List Nat} (h : dbind m f bs = .ok r) :
    ∃ a rest, m bs = .ok (a, rest) ∧ f a rest = .ok r := by
  unfold dbind at h
  cases hm : m bs with
  | error e =>
    rw [hm] at h
    exact Except.noConfusion h
  | ok ar =>
    obtain ⟨a, rest⟩ := ar
    rw [hm] at h
    exact ⟨a, rest, rfl, h⟩

theorem dOptionalBytes_isSome (cond : Bool) (bs : List Nat) (o : Option (List Nat))
    (rest : List Nat) (h : dOptionalBytes cond bs = .ok (o, rest)) : o.isSome = cond := by
  cases cond with
  | false =>
    unfold dOptionalBytes dpure at h
    cases h
    rfl
  | true =>
    unfold dOptionalBytes at h
    obtain ⟨a, r1, _, hf⟩ := dbind_ok h
    unfold dpure at hf
    cases hf
    rfl

theorem connectBody_will (bs : List Nat) (c : Connect) (rest : List Nat)
    (h : connectBody bs = .ok (c, rest)) :
    c.willTopic.isSome = c.willMessage.isSome := by
  unfold connectBody at h
  obtain ⟨pn, r1, _, h⟩ := dbind_ok h
  by_cases hpn : pn = protocolName
  · rw [if_pos hpn] at h
    obtain ⟨lvl, r2, _, h⟩ := dbind_ok h
    by_cases hlvl : lvl = 4
    · rw [if_pos hlvl] at h
      obtain ⟨flags, r3, _, h⟩ := dbind_ok h
      obtain ⟨ka, r4, _, h⟩ := dbind_ok h
      obtain ⟨cid, r5, _, h⟩ := dbind_ok h
      obtain ⟨wt, r6, hwt, h⟩ := dbind_ok h
      obtain ⟨wm, r7, hwm, h⟩ := dbind_ok h
      obtain ⟨un, r8, _, h⟩ := dbind_ok h
      obtain ⟨pw, r9, _, h⟩ := dbind_ok h
      unfold dpure at h
      cases h
      have h1 := dOptionalBytes_isSome _ _ _ _ hwt
      have h2 := dOptionalBytes_isSome _ _ _ _ hwm
      simp only []
      rw [h1, h2]
    · rw [if_neg hlvl] at h
      exact Except.noConfusion h
  · rw [if_neg hpn] at h
    exact Except.noConfusion h

theorem Connect.tryFromIter_ok_will (bs : List Nat) (c : Connect)
    (h : Connect.tryFromIter bs = .ok c) :
    c.willTopic.isSome = c.willMessage.isSome := by
  unfold Connect.tryFromIter at h
  cases hh : dHeader bs with
  | error e =>
    rw [hh] at h
    exact Except.noConfusion h
  | ok tr =>
    obtain ⟨⟨t, flags⟩, r1⟩ := tr
    rw [hh] at h
    simp only [] at h
    by_cases ht : t = 1
    · rw [if_pos ht] at h
      cases hpl : dPacketlen r1 with
      | error e =>
        rw [hpl] at h
        exact Except.noConfusion h
      | ok lr =>
        obtain ⟨len, r2⟩ := lr
        rw [hpl] at h
        simp only [] at h
        cases hb : connectBody (r2.take len) with
        | error e =>
          rw [hb] at h
          exact Except.noConfusion h
        | ok cr =>
          obtain ⟨c', rest'⟩ := cr
          rw [hb] at h
          simp only [] at h
          cases h
          exact connectBody_will _ _ _ hb
    · rw [if_neg ht] at h
      exact Except.noConfusion h

/-! ### Reachable CONNECT values (`Connect::new`, builders, decode) -/

/-- The `Connect` values reachable through the public operations of
`connect.rs`: the constructor, the two builder enrichments, and a
successful decode. -/
inductive ConnectReachable : Connect → Prop where
  | new (keepAliveSecs : Nat) (cleanSession : Bool) (clientId : List Nat) :
      ConnectReachable (Connect.new keepAliveSecs cleanSession clientId)
  | withWill (c : Connect) (topic message : List Nat) (qos : Nat) (retain : Bool) :
      ConnectReachable c → ConnectReachable (c.withWill topic message qos retain)
  | withUsernamePassword (c : Connect) (username password : List Nat) :
      ConnectReachable c → ConnectReachable (c.withUsernamePassword username password)
  | decoded (bs : List Nat) (c : Connect) :
      Connect.tryFromIter bs = .ok c → ConnectReachable c

theorem reachable_will_iff (c : Connect) (h : ConnectReachable c) :
    c.willTopic.isSome = c.willMessage.isSome := by
  induction h with
  | new ka cs cid => rfl
  | withWill c t m q r _ _ => rfl
  | withUsernamePassword c u p _ ih => exact ih
  | decoded bs c h => exact Connect.tryFromIter_ok_will bs c h

/-! ### The fixed-capacity `extend` loop, characterized -/

theorem arrayvecExtend_eq {α : Type} (cap : Nat) (xs es : List α) (h : xs.length ≤ cap) :
    arrayvecExtend cap xs es =
      (xs ++ es.take (cap - xs.length), decide (xs.length + es.length ≤ cap)) := by
  induction es generalizing xs with
  | nil =>
    show (xs, true) = _
    rw [List.take_nil, List.append_nil]
    have hd : decide (xs.length + ([] : List α).length ≤ cap) = true := by
      simp only [List.length_nil, Nat.add_zero, decide_eq_true_eq]
      omega
    rw [hd]
  | cons e es ih =>
    unfold arrayvecExtend arrayvecPush
    by_cases hlt : xs.length < cap
    · rw [if_pos hlt]
      simp only []
      have hlen1 : (xs ++ [e]).length ≤ cap := by
        simp only [List.length_append, List.length_cons, List.length_nil]
        omega
      rw [ih (xs ++ [e]) hlen1]
      have hcap : cap - xs.length = (cap - (xs ++ [e]).length) + 1 := by
        simp only [List.length_append, List.length_cons, List.length_nil]
        omega
      rw [hcap, List.take_succ_cons, Prod.ext_iff]
      constructor
      · simp [List.append_assoc]
      · simp only [List.length_append, List.length_cons, List.length_nil,
          decide_eq_decide]
        omega
    · rw [if_neg hlt]
      have hxs : xs.length = cap := by omega
      have h0 : cap - xs.length = 0 := by omega
      rw [h0, List.take_zero, List.append_nil]
      have hd : decide (xs.length + (e :: es).length ≤ cap) = false := by
        simp only [List.length_cons, decide_eq_false_iff_not]
        omega
      rw [hd]

/-! ### Length agreement for the remaining packet variants

The fixed-body variants (CONNACK, ACK-like, signal-like) do not run the
`Length` meter — their body length is the `BODY_LEN` constant (2 or 0) —
so the metered body length is that constant.  SUBSCRIBE and UNSUBSCRIBE
run the meter over `u16` plus the topic sequence. -/

theorem eBytes_some (b : List Nat) (h : b.length ≤ 65535) :
    eBytes b = some (eU16 b.length ++ b) := by
  unfold eBytes
  rw [if_pos h]

theorem connack_length_agreement (c : Connack) :
    ∃ bs, c.intoIter = some bs ∧ bs.length = 1 + plSize 2 + 2 :=
  ⟨_, rfl, rfl⟩

theorem acklike_length_agreement (t packetId : Nat) (h : t ≤ 15) :
    ∃ bs, acklikeIntoIter t packetId = some bs ∧ bs.length = 1 + plSize 2 + 2 := by
  have h1 : eHeader t ⟨false, false, false, false⟩ =
      some [(t <<< 4) ||| (Bool.toNat false <<< 3) ||| (Bool.toNat false <<< 2) |||
            (Bool.toNat false <<< 1) ||| Bool.toNat false] := by
    unfold eHeader
    rw [if_pos h]
  have hpl : ePacketlen 2 = some (plBytes (plSize 2) 2) := rfl
  refine ⟨[(t <<< 4) ||| (Bool.toNat false <<< 3) ||| (Bool.toNat false <<< 2) |||
           (Bool.toNat false <<< 1) ||| Bool.toNat false] ++ plBytes (plSize 2) 2 ++
           eU16 packetId, ?_, ?_⟩
  · simp only [acklikeIntoIter, h1, hpl, Option.bind_eq_bind, Option.some_bind]
    rfl
  · rfl

theorem signal_length_agreement (t : Nat) (h : t ≤ 15) :
    ∃ bs, signalIntoIter t = some bs ∧ bs.length = 1 + plSize 0 + 0 := by
  have h1 : eHeader t ⟨false, false, false, false⟩ =
      some [(t <<< 4) ||| (Bool.toNat false <<< 3) ||| (Bool.toNat false <<< 2) |||
            (Bool.toNat false <<< 1) ||| Bool.toNat false] := by
    unfold eHeader
    rw [if_pos h]
  have hpl : ePacketlen 0 = some (plBytes (plSize 0) 0) := rfl
  refine ⟨[(t <<< 4) ||| (Bool.toNat false <<< 3) ||| (Bool.toNat false <<< 2) |||
           (Bool.toNat false <<< 1) ||| Bool.toNat false] ++ plBytes (plSize 0) 0, ?_, ?_⟩
  · simp only [signalIntoIter, h1, hpl, Option.bind_eq_bind, Option.some_bind]
    rfl
  · rfl

theorem eTopics_some (ts : List (List Nat)) (h : ∀ t ∈ ts, t.length ≤ 65535) :
    ∃ out, eTopics ts = some out := by
  induction ts with
  | nil => exact ⟨[], rfl⟩
  | cons t r ih =>
    have ht : t.length ≤ 65535 := h t (List.mem_cons_self t r)
    obtain ⟨rout, hrout⟩ := ih fun x hx => h x (List.mem_cons_of_mem t hx)
    refine ⟨(eU16 t.length ++ t) ++ rout, ?_⟩
    unfold eTopics
    rw [eBytes_some t ht, hrout]
    rfl

theorem eTopicsQos_some (ts : List (List Nat × Nat))
    (h : ∀ tq ∈ ts, tq.1.length ≤ 65535) :
    ∃ out, eTopicsQos ts = some out := by
  induction ts with
  | nil => exact ⟨[], rfl⟩
  | cons tq r ih =>
    obtain ⟨t, q⟩ := tq
    have ht : t.length ≤ 65535 := h (t, q) (List.mem_cons_self (t, q) r)
    obtain ⟨rout, hrout⟩ := ih fun x hx => h x (List.mem_cons_of_mem (t, q) hx)
    refine ⟨(eU16 t.length ++ t) ++ [q] ++ rout, ?_⟩
    unfold eTopicsQos
    rw [eBytes_some t ht, hrout]
    rfl

theorem subscribe_length_agreement (s : Subscribe)
    (ht : ∀ tq ∈ s.topicsQos, tq.1.length ≤ 65535) (hl : subscribeLen s < 2 ^ 28) :
    ∃ bs, s.intoIter = some bs ∧
      bs.length = 1 + plSize (subscribeLen s) + subscribeLen s := by
  obtain ⟨out, hout⟩ := eTopicsQos_some s.topicsQos ht
  have houtlen := eTopicsQos_length s.topicsQos out hout
  have hpl : ePacketlen (subscribeLen s) =
      some (plBytes (plSize (subscribeLen s)) (subscribeLen s)) := by
    unfold ePacketlen
    rw [if_pos hl]
  have h1 : eHeader 8 ⟨false, false, true, false⟩ = some [0x82] := rfl
  refine ⟨[0x82] ++ plBytes (plSize (subscribeLen s)) (subscribeLen s) ++
           eU16 s.packetId ++ out, ?_, ?_⟩
  · simp only [Subscribe.intoIter, h1, hpl, hout, Option.bind_eq_bind, Option.some_bind]
    rfl
  · simp only [List.length_append, List.length_cons, List.length_nil, plBytes_length,
      eU16, subscribeLen, lenU16]
    omega

theorem unsubscribe_length_agreement (u : Unsubscribe)
    (ht : ∀ t ∈ u.topics, t.length ≤ 65535) (hl : unsubscribeLen u < 2 ^ 28) :
    ∃ bs, u.intoIter = some bs ∧
      bs.length = 1 + plSize (unsubscribeLen u) + unsubscribeLen u := by
  obtain ⟨out, hout⟩ := eTopics_some u.topics ht
  have houtlen := eTopics_length u.topics out hout
  have hpl : ePacketlen (unsubscribeLen u) =
      some (plBytes (plSize (unsubscribeLen u)) (unsubscribeLen u)) := by
    unfold ePacketlen
    rw [if_pos hl]
  have h1 : eHeader 10 ⟨false, false, true, false⟩ = some [0xA2] := rfl
  refine ⟨[0xA2] ++ plBytes (plSize (unsubscribeLen u)) (unsubscribeLen u) ++
           eU16 u.packetId ++ out, ?_, ?_⟩
  · simp only [Unsubscribe.intoIter, h1, hpl, hout, Option.bind_eq_bind, Option.some_bind]
    rfl
  · simp only [List.length_append, List.length_cons, List.length_nil, plBytes_length,
      eU16, unsubscribeLen, lenU16]
    omega

/-- The body length of each variant: the `Length`-metered body for the
variable-length packets, the fixed `BODY_LEN` constant (2 or 0) for the
ACK-like, CONNACK and signal-like templates. -/
def packetBodyLen : Packet → Nat
  | .connack _ => 2
  | .connect c => connectLen c
  | .disconnect => 0
  | .pingreq => 0
  | .pingresp => 0
  | .puback _ => 2
  | .pubcomp _ => 2
  | .publish p => publishLen p
  | .pubrec _ => 2
  | .pubrel _ => 2
  | .suback _ => 2
  | .subscribe s => subscribeLen s
  | .unsuback _ => 2
  | .unsubscribe u => unsubscribeLen u

/-- A valid packet value: its byte fields respect the encoder's
documented preconditions (each length-prefixed field fits a `u16`, the
body fits the remaining-length range). -/
def PacketValid : Packet → Prop
  | .connack _ => True
  | .connect c => ConnectValid c
  | .disconnect => True
  | .pingreq => True
  | .pingresp => True
  | .puback _ => True
  | .pubcomp _ => True
  | .publish p => p.topic.length ≤ 65535 ∧ publishLen p < 2 ^ 28
  | .pubrec _ => True
  | .pubrel _ => True
  | .suback _ => True
  | .subscribe s => (∀ tq ∈ s.topicsQos, tq.1.length ≤ 65535) ∧ subscribeLen s < 2 ^ 28
  | .unsuback _ => True
  | .unsubscribe u => (∀ t ∈ u.topics, t.length ≤ 65535) ∧ unsubscribeLen u < 2 ^ 28

theorem packet_length_agreement (p : Packet) (h : PacketValid p) :
    ∃ bs, p.intoIter = some bs ∧
      bs.length = 1 + plSize (packetBodyLen p) + packetBodyLen p := by
  cases p with
  | connack c => exact connack_length_agreement c
  | connect c => exact connect_length_agreement c h
  | disconnect => exact signal_length_agreement 14 (by omega)
  | pingreq => exact signal_length_agreement 12 (by omega)
  | pingresp => exact signal_length_agreement 13 (by omega)
  | puback packetId => exact acklike_length_agreement 4 packetId (by omega)
  | pubcomp packetId => exact acklike_length_agreement 7 packetId (by omega)
  | publish pp => exact publish_length_agreement pp h.1 h.2
  | pubrec packetId => exact acklike_length_agreement 5 packetId (by omega)
  | pubrel packetId => exact acklike_length_agreement 6 packetId (by omega)
  | suback packetId => exact acklike_length_agreement 9 packetId (by omega)
  | subscribe s => exact subscribe_length_agreement s h.1 h.2
  | unsuback packetId => exact acklike_length_agreement 11 packetId (by omega)
  | unsubscribe u => exact unsubscribe_length_agreement u h.1 h.2

/-! ## The claims -/

/-- C1: For every packet variant and valid value, decode of encode yields
`Ok` of an equal value — and in particular `Packet::try_from_iter` on the
bytes of `packet.into_iter()` returns `Ok` of an equal packet.  The
variant-level round-trip holds (second conjunct, and see the CONNECT
round-trip lemma), but the type-erased decode FAILS on its own encoder's
output: `Packet::try_from_iter` consumes the header byte with `next()`
without pushing it back, so the dispatched variant decoder runs on a
stream missing its header and reports a spec violation.  This evaluation
exhibits the failure at the CONNACK test vector `20 02 00 00`, which the
repository's own test `tests/packets/packet.rs::decode` asserts to decode
successfully. -/
theorem packet_typeErased_roundtrip_fails :
    Packet.intoIter (.connack (Connack.new false 0)) = some [0x20, 0x02, 0x00, 0x00] ∧
    Connack.tryFromIter [0x20, 0x02, 0x00, 0x00] = .ok (Connack.new false 0) ∧
    Packet.tryFromIter [0x20, 0x02, 0x00, 0x00] = .error .specViolation :=
  ⟨rfl, rfl, rfl⟩

/-- C2 counterexample: the CONNECT decoder applied to the test vector with
protocol level `0x05` instead of `0x04` returns the kind `SpecViolation` —
not a distinct `UnsupportedVersion` kind, which does not exist in the
embedded `Data`/`Decoding` enums of `error.rs`. -/
theorem connect_wrong_level_specViolation_cex :
    Connect.tryFromIter [0x10, 0x10, 0x00, 0x04, 0x4D, 0x51, 0x54, 0x54, 0x05,
      0x00, 0x00, 0x1E, 0x00, 0x04, 0x74, 0x65, 0x73, 0x74] = .error .specViolation := rfl

/-- C2 (amended): a wrong CONNECT protocol-level byte yields the same
`SpecViolation` kind as a wrong protocol name; the `Data` error enum has
exactly the kinds `Truncated` and `SpecViolation`, with no
`UnsupportedVersion` variant. -/
theorem connect_wrong_level_same_kind_as_wrong_name :
    Connect.tryFromIter [0x10, 0x10, 0x00, 0x04, 0x4D, 0x51, 0x54, 0x54, 0x05,
      0x00, 0x00, 0x1E, 0x00, 0x04, 0x74, 0x65, 0x73, 0x74] = .error .specViolation ∧
    Connect.tryFromIter [0x10, 0x10, 0x00, 0x04, 0x4D, 0x51, 0x54, 0x50, 0x04,
      0x00, 0x00, 0x1E, 0x00, 0x04, 0x74, 0x65, 0x73, 0x74] = .error .specViolation ∧
    (∀ d : Data, d = .truncated ∨ d = .specViolation) := by
  refine ⟨rfl, rfl, fun d => ?_⟩
  cases d
  · exact Or.inl rfl
  · exact Or.inr rfl

/-- C3: the type-erased `Packet::try_from_iter` reads the first byte and
dispatches on its high nibble (unknown nibble: `SpecViolation`, last
conjunct), but it does NOT push the byte back: the byte is consumed with
`next()`, so the variant decoder runs on the remainder and fails even on
a valid encoding.  `E0 00` is the DISCONNECT test vector: its own encoder
produces it, the DISCONNECT variant decoder accepts the full stream, yet
the type-erased decoder rejects it because the variant decoder only ever
sees `[00]`. -/
theorem packet_dispatch_consumes_header_byte :
    signalIntoIter 14 = some [0xE0, 0x00] ∧
    signalTryFromIter 14 [0xE0, 0x00] = .ok () ∧
    Packet.tryFromIter [0xE0, 0x00] = .error .specViolation ∧
    Packet.tryFromIter [0xF0, 0x00] = .error .specViolation :=
  ⟨rfl, rfl, rfl, rfl⟩

/-- C4 counterexample: PUBLISH topic `"T"` payload `[41 42]` encodes to
`30 05 00 01 54 41 42`; dropping the final byte gives a strict prefix
that the PUBLISH decoder ACCEPTS — the greedy `raw_remainder` payload
simply becomes one byte shorter — instead of returning `Truncated`. -/
theorem publish_prefix_decodes_ok_cex :
    Publish.intoIter (Publish.new [0x54] [0x41, 0x42] false) =
      some [0x30, 0x05, 0x00, 0x01, 0x54, 0x41, 0x42] ∧
    Publish.tryFromIter (List.take 6 [0x30, 0x05, 0x00, 0x01, 0x54, 0x41, 0x42]) =
      .ok { dup := false, qos := 0, retain := false, topic := [0x54],
            packetId := none, payload := [0x41] } ∧
    Publish.tryFromIter (List.take 6 [0x30, 0x05, 0x00, 0x01, 0x54, 0x41, 0x42]) ≠
      .error .truncated := by
  refine ⟨rfl, rfl, fun hcontra => ?_⟩
  have hok : Publish.tryFromIter (List.take 6 [0x30, 0x05, 0x00, 0x01, 0x54, 0x41, 0x42]) =
      .ok { dup := false, qos := 0, retain := false, topic := [0x54],
            packetId := none, payload := [0x41] } := rfl
  exact Except.noConfusion (hok.symm.trans hcontra)

/-- C4 (amended): for a packet variant whose grammar has no greedy
trailing field — shown here for CONNECT — decoding any strict prefix of
`encode(v)` returns `Err(Truncated)`; for PUBLISH, a strict prefix that
cuts into the greedy `raw_remainder` payload region instead decodes to
`Ok` with the truncated payload (see the counterexample). -/
theorem connect_strict_prefix_truncated (c : Connect) (h : ConnectValid c)
    (bs : List Nat) (hbs : c.intoIter = some bs) (k : Nat) (hk : k < bs.length) :
    Connect.tryFromIter (bs.take k) = .error .truncated :=
  connect_truncation c h bs hbs k hk

/-- Witness for C4 (amended): the CONNECT basic test vector, cut after 9
bytes, decodes to `Truncated`. -/
theorem connect_strict_prefix_truncated_witness :
    ConnectValid (Connect.new 30 false [0x74, 0x65, 0x73, 0x74]) ∧
    (Connect.new 30 false [0x74, 0x65, 0x73, 0x74]).intoIter =
      some [0x10, 0x10, 0x00, 0x04, 0x4D, 0x51, 0x54, 0x54, 0x04, 0x00, 0x00, 0x1E,
            0x00, 0x04, 0x74, 0x65, 0x73, 0x74] ∧
    Connect.tryFromIter (List.take 9 [0x10, 0x10, 0x00, 0x04, 0x4D, 0x51, 0x54, 0x54,
      0x04, 0x00, 0x00, 0x1E, 0x00, 0x04, 0x74, 0x65, 0x73, 0x74]) = .error .truncated := by
  have hv : ConnectValid (Connect.new 30 false [0x74, 0x65, 0x73, 0x74]) :=
    ⟨by decide, by decide, by decide, by decide,
     fun t ht => Option.noConfusion ht, fun t ht => Option.noConfusion ht,
     fun t ht => Option.noConfusion ht, fun t ht => Option.noConfusion ht, rfl⟩
  exact ⟨hv, rfl, connect_strict_prefix_truncated _ hv _ rfl 9 (by decide)⟩

/-- C5 counterexample: `extend` on a fixed-capacity backend of capacity 2
holding `[1]`, applied to `[2, 3]`, fails with `CapacityExhausted` (the
`false` flag) yet leaves `[1, 2]` behind: the element accepted before the
failing push stays visible, so the failure is not atomic. -/
theorem arrayvec_extend_partial_state_cex :
    arrayvecExtend 2 [1] [2, 3] = ([1, 2], false) ∧ ([1, 2] : List Nat) ≠ [1] :=
  ⟨rfl, by decide⟩

/-- C5 (amended): the `arrayvec`/`heapless` `extend` pushes element by
element: it succeeds exactly when everything fits, and on failure the
elements that fit before the failing push remain appended (a visible
prefix), the rest being dropped. -/
theorem arrayvec_extend_characterization {α : Type} (cap : Nat) (xs es : List α)
    (h : xs.length ≤ cap) :
    arrayvecExtend cap xs es =
      (xs ++ es.take (cap - xs.length), decide (xs.length + es.length ≤ cap)) :=
  arrayvecExtend_eq cap xs es h

/-- Witness for C5 (amended), at the counterexample's input. -/
theorem arrayvec_extend_characterization_witness :
    ([1] : List Nat).length ≤ 2 ∧ arrayvecExtend 2 [1] [2, 3] = ([1, 2], false) :=
  ⟨by decide, (arrayvec_extend_characterization 2 [1] [2, 3] (by decide)).trans (by decide)⟩

/-- C6 counterexample: a CONNECT whose remaining-length region carries one
byte (`FF`) beyond the parsed fields decodes successfully — the leftover
byte inside the length-limited region is ignored, not rejected. -/
theorem connect_leftover_bytes_accepted_cex :
    Connect.tryFromIter [0x10, 0x11, 0x00, 0x04, 0x4D, 0x51, 0x54, 0x54, 0x04, 0x00,
      0x00, 0x1E, 0x00, 0x04, 0x74, 0x65, 0x73, 0x74, 0xFF] =
      .ok (Connect.new 30 false [0x74, 0x65, 0x73, 0x74]) ∧
    (∀ e : Decoding, Connect.tryFromIter [0x10, 0x11, 0x00, 0x04, 0x4D, 0x51, 0x54, 0x54,
      0x04, 0x00, 0x00, 0x1E, 0x00, 0x04, 0x74, 0x65, 0x73, 0x74, 0xFF] ≠ .error e) := by
  refine ⟨rfl, fun e hcontra => ?_⟩
  have hok : Connect.tryFromIter [0x10, 0x11, 0x00, 0x04, 0x4D, 0x51, 0x54, 0x54, 0x04,
      0x00, 0x00, 0x1E, 0x00, 0x04, 0x74, 0x65, 0x73, 0x74, 0xFF] =
      .ok (Connect.new 30 false [0x74, 0x65, 0x73, 0x74]) := rfl
  exact Except.noConfusion (hok.symm.trans hcontra)

/-- C6 (amended): variants with a fixed body length (CONNACK, ACK-like,
signal-like) reject a remaining length different from the expected
constant with `SpecViolation`, but CONNECT performs no leftover check:
bytes left in the length-limited region after the last parsed field are
silently ignored and decoding succeeds. -/
theorem leftover_bytes_behavior :
    Connect.tryFromIter [0x10, 0x11, 0x00, 0x04, 0x4D, 0x51, 0x54, 0x54, 0x04, 0x00,
      0x00, 0x1E, 0x00, 0x04, 0x74, 0x65, 0x73, 0x74, 0xFF] =
      .ok (Connect.new 30 false [0x74, 0x65, 0x73, 0x74]) ∧
    Connack.tryFromIter [0x20, 0x01, 0x00] = .error .specViolation ∧
    Connack.tryFromIter [0x20, 0x03, 0x00, 0x00, 0x00] = .error .specViolation :=
  ⟨rfl, rfl, rfl⟩

/-- C7: for every `n < 2^28`, `Encoder::packetlen` emits a byte sequence
that `Decoder::packetlen` decodes back to exactly `n` (consuming it all);
for every `n ≥ 2^28` the encoder panics (modelled as `none`). -/
theorem packetlen_roundtrip_and_panic (n : Nat) :
    (n < 2 ^ 28 → ∃ bs, ePacketlen n = some bs ∧ dPacketlen bs = .ok (n, [])) ∧
    (2 ^ 28 ≤ n → ePacketlen n = none) := by
  constructor
  · intro h
    refine ⟨plBytes (plSize n) n, ?_, ?_⟩
    · unfold ePacketlen
      rw [if_pos h]
    · have h0 := (consumes_packetlen n h).ok []
      rwa [List.append_nil] at h0
  · intro h
    unfold ePacketlen
    rw [if_neg (by omega)]

/-- Witness for C7 at `n = 321` and at the panic boundary `n = 2^28`. -/
theorem packetlen_roundtrip_and_panic_witness :
    ((321 : Nat) < 2 ^ 28 ∧
      ∃ bs, ePacketlen 321 = some bs ∧ dPacketlen bs = .ok (321, [])) ∧
    (2 ^ 28 ≤ 2 ^ 28 ∧ ePacketlen (2 ^ 28) = none) :=
  ⟨⟨by norm_num, (packetlen_roundtrip_and_panic 321).1 (by norm_num)⟩,
   ⟨Nat.le_refl _, (packetlen_roundtrip_and_panic (2 ^ 28)).2 (Nat.le_refl _)⟩⟩

/-- C8: `Decoder::packetlen` accepts the single byte `00` as 0; rejects
any stream starting with `80` (a multi-byte encoding whose accumulated
value is still 0) with the `SpecViolation`-kind "Invalid packet length"
error; accepts `FF FF FF 7F` as `2^28 - 1`; and rejects any stream
starting `FF FF FF FF` (continuation bit set on the 4th byte) with the
`SpecViolation`-kind "Packet length is too large" error. -/
theorem packetlen_boundary_cases :
    dPacketlen [0x00] = .ok (0, []) ∧
    (∀ rest, dPacketlen (0x80 :: rest) = .error .invalidPacketLength) ∧
    classify .invalidPacketLength = .specViolation ∧
    dPacketlen [0xFF, 0xFF, 0xFF, 0x7F] = .ok (2 ^ 28 - 1, []) ∧
    (∀ rest, dPacketlen (0xFF :: 0xFF :: 0xFF :: 0xFF :: rest) =
      .error .packetLengthTooLarge) ∧
    classify .packetLengthTooLarge = .specViolation :=
  ⟨rfl, fun _ => rfl, rfl, rfl, fun _ => rfl, rfl⟩

/-- C9: for each primitive, the byte count added by the `Length` meter
equals the number of bytes the `Encoder` emits whenever the encoder does
not panic; consequently, for every valid packet value of every variant —
CONNECT, PUBLISH, CONNACK, the six ACK-like and three signal-like
template instantiations, SUBSCRIBE, UNSUBSCRIBE, and the type-erased
`Packet` over all fourteen — the total encoded byte count is the body
length (metered for the variable-length variants, the fixed `BODY_LEN`
constant for the fixed-length templates) plus the header byte plus the
size of the remaining-length field. -/
theorem length_meter_agreement :
    (∀ b : Nat, (eU8 b).length = lenU8) ∧
    (∀ v : Nat, (eU16 v).length = lenU16) ∧
    (∀ r : List Nat, (eRaw r).length = lenRaw r) ∧
    (∀ bits : Bits8, (eBitmap bits).length = lenBitmap) ∧
    (∀ b out, eBytes b = some out → out.length = lenBytes b) ∧
    (∀ t f out, eHeader t f = some out → lenHeader t = some out.length) ∧
    (∀ n out, ePacketlen n = some out → lenPacketlen n = some out.length) ∧
    (∀ o : Option Nat, (eOptionalU16 o).length = lenOptionalU16 o) ∧
    (∀ o out, eOptionalBytes o = some out → out.length = lenOptionalBytes o) ∧
    (∀ ts out, eTopics ts = some out → out.length = lenTopics ts) ∧
    (∀ ts out, eTopicsQos ts = some out → out.length = lenTopicsQos ts) ∧
    (∀ c : Connect, ConnectValid c → ∃ bs, c.intoIter = some bs ∧
        bs.length = 1 + plSize (connectLen c) + connectLen c) ∧
    (∀ p : Publish, p.topic.length ≤ 65535 → publishLen p < 2 ^ 28 → ∃ bs,
        p.intoIter = some bs ∧ bs.length = 1 + plSize (publishLen p) + publishLen p) ∧
    (∀ c : Connack, ∃ bs, c.intoIter = some bs ∧ bs.length = 1 + plSize 2 + 2) ∧
    (∀ t packetId : Nat, t ≤ 15 → ∃ bs, acklikeIntoIter t packetId = some bs ∧
        bs.length = 1 + plSize 2 + 2) ∧
    (∀ t : Nat, t ≤ 15 → ∃ bs, signalIntoIter t = some bs ∧
        bs.length = 1 + plSize 0 + 0) ∧
    (∀ s : Subscribe, (∀ tq ∈ s.topicsQos, tq.1.length ≤ 65535) →
        subscribeLen s < 2 ^ 28 → ∃ bs, s.intoIter = some bs ∧
        bs.length = 1 + plSize (subscribeLen s) + subscribeLen s) ∧
    (∀ u : Unsubscribe, (∀ t ∈ u.topics, t.length ≤ 65535) →
        unsubscribeLen u < 2 ^ 28 → ∃ bs, u.intoIter = some bs ∧
        bs.length = 1 + plSize (unsubscribeLen u) + unsubscribeLen u) ∧
    (∀ p : Packet, PacketValid p → ∃ bs, p.intoIter = some bs ∧
        bs.length = 1 + plSize (packetBodyLen p) + packetBodyLen p) :=
  ⟨fun _ => rfl, fun _ => rfl, fun _ => rfl, fun _ => rfl,
   eBytes_length, eHeader_length, ePacketlen_length, eOptionalU16_length,
   eOptionalBytes_length, eTopics_length, eTopicsQos_length,
   connect_length_agreement, publish_length_agreement,
   connack_length_agreement, acklike_length_agreement, signal_length_agreement,
   subscribe_length_agreement, unsubscribe_length_agreement,
   packet_length_agreement⟩

/-- Witness for C9: the `bytes` primitive at `[7, 8, 9]`, the CONNECT
total at the basic test-vector value, the ACK-like total at
`PUBACK(0x0407)`, the SUBSCRIBE total at the two-field test value, and
the type-erased total at `Packet::Puback(0x0407)`. -/
theorem length_meter_agreement_witness :
    (eBytes [7, 8, 9] = some [0, 3, 7, 8, 9] ∧
      ([0, 3, 7, 8, 9] : List Nat).length = lenBytes [7, 8, 9]) ∧
    (∃ bs, (Connect.new 30 false [0x74, 0x65, 0x73, 0x74]).intoIter = some bs ∧
      bs.length = 1 + plSize (connectLen (Connect.new 30 false [0x74, 0x65, 0x73, 0x74]))
        + connectLen (Connect.new 30 false [0x74, 0x65, 0x73, 0x74])) ∧
    (∃ bs, acklikeIntoIter 4 0x0407 = some bs ∧ bs.length = 1 + plSize 2 + 2) ∧
    (∃ bs, (⟨0x0407, [([0x74, 0x65, 0x73, 0x74], 1)]⟩ : Subscribe).intoIter = some bs ∧
      bs.length = 1 + plSize (subscribeLen ⟨0x0407, [([0x74, 0x65, 0x73, 0x74], 1)]⟩)
        + subscribeLen ⟨0x0407, [([0x74, 0x65, 0x73, 0x74], 1)]⟩) ∧
    (∃ bs, (Packet.puback 0x0407).intoIter = some bs ∧
      bs.length = 1 + plSize (packetBodyLen (.puback 0x0407))
        + packetBodyLen (.puback 0x0407)) := by
  have hv : ConnectValid (Connect.new 30 false [0x74, 0x65, 0x73, 0x74]) :=
    ⟨by decide, by decide, by decide, by decide,
     fun t ht => Option.noConfusion ht, fun t ht => Option.noConfusion ht,
     fun t ht => Option.noConfusion ht, fun t ht => Option.noConfusion ht, rfl⟩
  obtain ⟨-, -, -, -, hbytes, -, -, -, -, -, -, hconnect, -, -, hack, -, hsub, -, hpkt⟩ :=
    length_meter_agreement
  refine ⟨⟨rfl, hbytes [7, 8, 9] [0, 3, 7, 8, 9] rfl⟩, hconnect _ hv, ?_, ?_, ?_⟩
  · exact hack 4 0x0407 (by omega)
  · exact hsub _ (by decide) (by decide)
  · exact hpkt (.puback 0x0407) trivial

/-- C10: every `Connect` value reachable through the public operations
(`new`, `with_will`, `with_username_password`, `try_from_iter`) has
`will_topic` present exactly when `will_message` is; the will-flag bit the
encoder emits (bit 5 of the connect-flag byte, derived from `will_topic`
presence alone) therefore also coincides with `will_message` presence. -/
theorem connect_reachable_will_invariant (c : Connect) (h : ConnectReachable c) :
    c.willTopic.isSome = c.willMessage.isSome ∧
    (connectFlags c).i2 = c.willTopic.isSome ∧
    (connectFlags c).i2 = c.willMessage.isSome := by
  have h1 := reachable_will_iff c h
  exact ⟨h1, rfl, h1⟩

/-- Witness for C10 at a value built by `new` then `with_will`. -/
theorem connect_reachable_will_invariant_witness :
    ConnectReachable ((Connect.new 30 false [0x74]).withWill [0x77] [0x6D] 1 true) ∧
    ((Connect.new 30 false [0x74]).withWill [0x77] [0x6D] 1 true).willTopic.isSome =
      ((Connect.new 30 false [0x74]).withWill [0x77] [0x6D] 1 true).willMessage.isSome := by
  have hr : ConnectReachable ((Connect.new 30 false [0x74]).withWill [0x77] [0x6D] 1 true) :=
    ConnectReachable.withWill _ _ _ _ _ (ConnectReachable.new 30 false [0x74])
  exact ⟨hr, (connect_reachable_will_invariant _ hr).1⟩

end MqttTiny
